import Mathlib

/-!
# Verification of the chess-tutor evaluation session manager

Shallow embedding of the asynchronous evaluation-request correlation layer of
the chess-tutor repository:

* `ChessEngine` — the main-thread controller of `src/unnamed/part_002`
  (class `ChessEngine`: `handleStockfishMessage`, `getEvaluation`,
  `stopEvaluation`, `destroy`).
* `ChessEngineOld` — the older controller of `src/src/lib/chessEngine.ts`
  (same class name, no search-id correlation).
* `Sys` — the whole system: main thread, the web worker of
  `src/unnamed/part_005` (which stamps every forwarded engine line with its
  *current* `currentSearchId`), the engine searches, and the two FIFO message
  channels.  Ghost fields (`genOwner`, `startedGens`, `observedGens`,
  `submittedEpoch`, serial numbers) record specification-level facts that the
  code itself does not track, such as which request caused which search.

JavaScript `Map`s are modelled as insertion-ordered association lists,
promises as a log of `Event`s keyed by a ghost serial number (promise
identity; a settled promise can never fire again, which the log makes
visible), `setTimeout` as a per-entry deadline fired by `tick` steps.
Messages posted by a worker before `terminate()` are already queued on the
main thread's event loop, so the model keeps them deliverable after
`destroy()`; delivery of the whole worker-to-main channel is FIFO.
-/

/-! ## UCI line parsing (the regexes of `handleStockfishMessage`) -/

/-- Prefix test on character lists (JS `String.prototype.startsWith`). -/
def lstartsWith : List Char → List Char → Bool
  | _, [] => true
  | [], _ :: _ => false
  | c :: cs, p :: ps => c = p && lstartsWith cs ps

/-- Substring test (JS `String.prototype.includes`). -/
def lincludes : List Char → List Char → Bool
  | [], pat => lstartsWith [] pat
  | s@(_ :: rest), pat => lstartsWith s pat || lincludes rest pat

/-- Character class `[a-h]` of the move regexes. -/
def isFile (c : Char) : Bool := 'a' ≤ c && c ≤ 'h'

/-- Character class `[1-8]` of the move regexes. -/
def isRank (c : Char) : Bool := '1' ≤ c && c ≤ '8'

/-- Character class `[qrbn]` of the move regexes. -/
def isPromo (c : Char) : Bool := c = 'q' || c = 'r' || c = 'b' || c = 'n'

/-- Digit class `\d`. -/
def isDigit (c : Char) : Bool := '0' ≤ c && c ≤ '9'

/-- Match `[a-h][1-8][a-h][1-8][qrbn]?` at the current position (greedy `?`). -/
def matchMove : List Char → Option (List Char)
  | a :: b :: c :: d :: rest =>
    if isFile a && isRank b && isFile c && isRank d then
      match rest with
      | e :: _ => if isPromo e then some [a, b, c, d, e] else some [a, b, c, d]
      | [] => some [a, b, c, d]
    else none
  | _ => none

/-- Leftmost-match scan, as a JS regex searches a string position by position. -/
def scan (f : List Char → Option α) : List Char → Option α
  | [] => f []
  | s@(_ :: rest) =>
    match f s with
    | some r => some r
    | none => scan f rest

/-- Value of a nonempty digit run (JS `parseInt(_, 10)` on a `\d+` group). -/
def digitsToNat (ds : List Char) : Nat :=
  ds.foldl (fun acc c => 10 * acc + (c.toNat - '0'.toNat)) 0

/-- Match `-?\d+` at the current position (greedy digit run). -/
def parseNum (l : List Char) : Option Int :=
  match l with
  | '-' :: rest =>
    let ds := rest.takeWhile isDigit
    if ds.isEmpty then none else some (-(digitsToNat ds : Int))
  | _ =>
    let ds := l.takeWhile isDigit
    if ds.isEmpty then none else some (digitsToNat ds : Int)

/-- The two score kinds of the regex `score (cp|mate) (-?\d+)`. -/
inductive ScoreKind where
  | cp
  | mate
deriving DecidableEq, Repr

/-- Match `score (cp|mate) (-?\d+)` at the current position. -/
def scoreAt : List Char → Option (ScoreKind × Int)
  | 's' :: 'c' :: 'o' :: 'r' :: 'e' :: ' ' :: rest =>
    match rest with
    | 'c' :: 'p' :: ' ' :: r2 => (parseNum r2).map (fun n => (ScoreKind.cp, n))
    | 'm' :: 'a' :: 't' :: 'e' :: ' ' :: r2 => (parseNum r2).map (fun n => (ScoreKind.mate, n))
    | _ => none
  | _ => none

/-- `message.match(/score (cp|mate) (-?\d+)/)`. -/
def findScore (s : String) : Option (ScoreKind × Int) := scan scoreAt s.data

/-- Match `pv ([a-h][1-8][a-h][1-8][qrbn]?)` at the current position. -/
def pvAt : List Char → Option (List Char)
  | 'p' :: 'v' :: ' ' :: rest => matchMove rest
  | _ => none

/-- `message.match(/pv ([a-h][1-8][a-h][1-8][qrbn]?)/)`, returning group 1. -/
def findPv (s : String) : Option String := (scan pvAt s.data).map List.asString

/-- Match `bestmove ([a-h][1-8][a-h][1-8][qrbn]?)` at the current position. -/
def bestmoveAt : List Char → Option (List Char)
  | 'b' :: 'e' :: 's' :: 't' :: 'm' :: 'o' :: 'v' :: 'e' :: ' ' :: rest => matchMove rest
  | _ => none

/-- `message.match(/bestmove ([a-h][1-8][a-h][1-8][qrbn]?)/)`, returning group 1. -/
def findBestmove (s : String) : Option String := (scan bestmoveAt s.data).map List.asString

/-- Guard `message.startsWith('info') && message.includes('score')`. -/
def isInfoScore (m : String) : Bool :=
  lstartsWith m.data "info".data && lincludes m.data "score".data

/-- Guard `message.startsWith('bestmove')`. -/
def isBestmoveLine (m : String) : Bool := lstartsWith m.data "bestmove".data

/-- Score computation of `handleStockfishMessage`: a `cp` score is the parsed
integer; a `mate` score is the sentinel `10000` with the sign of the mate
distance (`mateIn > 0 ? 10000 : -10000`). -/
def computeScore : ScoreKind → Int → Int
  | ScoreKind.cp, n => n
  | ScoreKind.mate, n => if 0 < n then 10000 else -10000

/-! ## Data model -/

/-- `EvaluationResult` of both engine modules: centipawn score and optional
UCI best move. -/
structure EvalResult where
  score : Int
  bestMove : Option String
deriving DecidableEq, Repr

/-- One entry of `pendingEvaluations` (part_002): the JS object holds the
promise resolvers and the accumulated partial `evaluation`; the model adds the
ghost `serial` (promise identity, a global submission counter that is never
reset) and the `deadline` of the entry's 30-second `setTimeout`. -/
structure PendingEntry where
  evalId : Nat
  serial : Nat
  deadline : Nat
  evaluation : Option EvalResult
deriving DecidableEq, Repr

/-- An engine search generation: (worker epoch, worker `currentSearchId`).
The epoch is ghost data distinguishing the successive workers created across
`destroy()`/`initialize()`; the code only ever sees the second component. -/
abbrev Gen := Nat × Nat

/-- Observable promise events, keyed by ghost serial.  `resolved` also
records (as ghost data) the generation of the engine search that produced the
triggering `bestmove` line.  `rejected` carries the exact `Error` message
string of the source. -/
inductive Event where
  | submitted (serial : Nat)
  | resolved (serial : Nat) (result : EvalResult) (producing : Gen)
  | rejected (serial : Nat) (msg : String)
deriving DecidableEq, Repr

namespace ChessEngine

/-- The fields of class `ChessEngine` (part_002) that the claims concern. -/
structure MainState where
  pendingEvaluations : List PendingEntry
  evaluationId : Nat
  searchIdToEvalId : List (Nat × Nat)
  isReady : Bool
  hasWorker : Bool
deriving DecidableEq, Repr

/-- Values of the `searchIdToEvalId` map (`.values()` iteration). -/
def mapValues (m : List (Nat × Nat)) : List Nat := m.map (fun q => q.2)

/-- The inner `isMapped` loop: does some map entry point at this evalId? -/
def isMappedE (m : List (Nat × Nat)) (e : Nat) : Bool := e ∈ mapValues m

/-- `searchIdToEvalId.get(searchId)`: first entry with this key. -/
def lookupSid (m : List (Nat × Nat)) (sid : Nat) : Option Nat :=
  (m.find? (fun q => q.1 = sid)).map (fun q => q.2)

/-- The first pending evaluation not yet mapped to any searchId (the
`for (const [eid, pending] of this.pendingEvaluations.entries())` loop that
breaks at the first unmapped entry). -/
def firstUnmapped (pend : List PendingEntry) (m : List (Nat × Nat)) : Option Nat :=
  (pend.find? (fun p => !isMappedE m p.evalId)).map (fun p => p.evalId)

/-- Shared evalId lookup of both branches of `handleStockfishMessage`: use the
mapped evalId for `sid`, or — if `sid` is unmapped and some evaluation is
pending — map `sid` to the oldest unmapped pending evaluation. -/
def resolveSid (m : List (Nat × Nat)) (sid : Nat) (pend : List PendingEntry) :
    Option Nat × List (Nat × Nat) :=
  match lookupSid m sid with
  | some e => (some e, m)
  | none =>
    if pend.isEmpty then (none, m)
    else
      match firstUnmapped pend m with
      | some e => (some e, m ++ [(sid, e)])
      | none => (none, m)

/-- `pending.evaluation = { score, bestMove }` for the entry keyed `e`
(no-op when absent, matching the `if (pending)` guard). -/
def updateEval (pend : List PendingEntry) (e : Nat) (v : EvalResult) : List PendingEntry :=
  pend.map (fun p => if p.evalId = e then { p with evaluation := some v } else p)

/-- `pendingEvaluations.delete(e)` (keys are unique in a JS `Map`). -/
def removePending (pend : List PendingEntry) (e : Nat) : List PendingEntry :=
  pend.filter (fun p => p.evalId ≠ e)

/-- The cleanup loop of `wrappedResolve`/`wrappedReject`: delete the first
`searchIdToEvalId` entry whose value is `e`, then break. -/
def eraseByValue (m : List (Nat × Nat)) (e : Nat) : List (Nat × Nat) :=
  match m with
  | [] => []
  | q :: rest => if q.2 = e then rest else q :: eraseByValue rest e

/-- `searchIdToEvalId.delete(sid)`. -/
def removeKey (m : List (Nat × Nat)) (sid : Nat) : List (Nat × Nat) :=
  m.filter (fun q => q.1 ≠ sid)

/-- The `info ... score ...` branch of `handleStockfishMessage` (part_002):
parse score and pv, correlate the stamped searchId (establishing the mapping
to the oldest unmapped pending evaluation if needed), and overwrite the
partial evaluation of the correlated request.  Emits no promise events. -/
def infoPhase (msg : String) (sid : Option Nat) (st : MainState) : MainState :=
  if isInfoScore msg then
    match findScore msg, sid with
    | some (k, n), some s =>
      let r := resolveSid st.searchIdToEvalId s st.pendingEvaluations
      match r.1 with
      | some e =>
        { st with
          searchIdToEvalId := r.2
          pendingEvaluations :=
            updateEval st.pendingEvaluations e ⟨computeScore k n, findPv msg⟩ }
      | none => { st with searchIdToEvalId := r.2 }
    | _, _ => st
  else st

/-- The `bestmove` branch of `handleStockfishMessage` (part_002): correlate the
stamped searchId (same fallback), update or create the evaluation from the
completion line, then resolve it — or reject with `'Evaluation incomplete'`
when no evaluation was ever captured — and clean up the entry and mapping.
`prod` is the ghost producing generation of the delivered line. -/
def bestmovePhase (msg : String) (sid : Option Nat) (prod : Gen) (st : MainState) :
    MainState × List Event :=
  if isBestmoveLine msg then
    let bm := findBestmove msg
    match sid with
    | some s =>
      let r := resolveSid st.searchIdToEvalId s st.pendingEvaluations
      match r.1 with
      | some e =>
        match st.pendingEvaluations.find? (fun p => p.evalId = e) with
        | some p =>
          let ev1 : Option EvalResult :=
            match bm with
            | some mv =>
              some (match p.evaluation with
                    | some ev => { ev with bestMove := some mv }
                    | none => ⟨0, some mv⟩)
            | none => p.evaluation
          let ev : Event :=
            match ev1 with
            | some res => Event.resolved p.serial res prod
            | none => Event.rejected p.serial "Evaluation incomplete"
          ({ st with
             pendingEvaluations := removePending st.pendingEvaluations e
             searchIdToEvalId := removeKey (eraseByValue r.2 e) s }, [ev])
        | none => ({ st with searchIdToEvalId := r.2 }, [])
      | none => ({ st with searchIdToEvalId := r.2 }, [])
    | none => (st, [])
  else (st, [])

/-- `handleStockfishMessage(message, searchId)` of part_002: the `info` branch
followed by the `bestmove` branch. -/
def handleStockfishMessage (msg : String) (sid : Option Nat) (prod : Gen)
    (st : MainState) : MainState × List Event :=
  bestmovePhase msg sid prod (infoPhase msg sid st)

/-- `getEvaluation(fen, depth)` of part_002, the part that runs synchronously
inside the promise executor: allocate `++evaluationId`, reject every pending
evaluation that has no searchId mapping with
`'Evaluation cancelled by new request'`, insert the new pending entry with a
`now + 30` deadline, and (at the `Sys` level) post the `evaluate` message.
`serial` is the ghost promise identity of the new request.  Returns the new
state and the emitted events, ending with the ghost `submitted` marker. -/
def getEvaluationStep (st : MainState) (serial : Nat) (now : Nat) :
    MainState × List Event :=
  let evalId := st.evaluationId + 1
  let unmapped := st.pendingEvaluations.filter
    (fun p => !isMappedE st.searchIdToEvalId p.evalId)
  let kept := st.pendingEvaluations.filter
    (fun p => isMappedE st.searchIdToEvalId p.evalId)
  ({ st with
     evaluationId := evalId
     pendingEvaluations := kept ++ [⟨evalId, serial, now + 30, none⟩] },
   unmapped.map (fun p => Event.rejected p.serial "Evaluation cancelled by new request")
     ++ [Event.submitted serial])

/-- `stopEvaluation()` of part_002 (body guarded by `worker && isReady`):
reject all pending evaluations with `'Evaluation stopped'` and clear both
maps.  The `stop` posting to the worker happens at the `Sys` level. -/
def stopEvaluationStep (st : MainState) : MainState × List Event :=
  if st.hasWorker && st.isReady then
    ({ st with pendingEvaluations := [], searchIdToEvalId := [] },
     st.pendingEvaluations.map (fun p => Event.rejected p.serial "Evaluation stopped"))
  else (st, [])

/-- `destroy()` of part_002 (body guarded by `worker !== null`): run
`stopEvaluation()`, reject whatever is still pending with
`'Worker terminated'`, clear both maps, drop the worker, clear `isReady`, and
reset `evaluationId` to 0. -/
def destroyStep (st : MainState) : MainState × List Event :=
  if st.hasWorker then
    let r := stopEvaluationStep st
    (({ r.1 with
        pendingEvaluations := [], searchIdToEvalId := []
        hasWorker := false, isReady := false, evaluationId := 0 }),
     r.2 ++ r.1.pendingEvaluations.map
       (fun p => Event.rejected p.serial "Worker terminated"))
  else (st, [])

/-- One expiring 30-second timer batch at time `t` (`wrappedReject` with
`'Evaluation timeout'` for every armed timer whose deadline has passed; each
removes its own pending entry and its searchId mapping). -/
def tickStep (st : MainState) (t : Nat) : MainState × List Event :=
  let due := st.pendingEvaluations.filter (fun p => p.deadline ≤ t)
  let dueIds := due.map (fun p => p.evalId)
  ({ st with
     pendingEvaluations := st.pendingEvaluations.filter (fun p => p.evalId ∉ dueIds)
     searchIdToEvalId := dueIds.foldl eraseByValue st.searchIdToEvalId },
   due.map (fun p => Event.rejected p.serial "Evaluation timeout"))

end ChessEngine

namespace ChessEngineOld

/-- The fields of the older class `ChessEngine`
(`src/src/lib/chessEngine.ts`): no searchId correlation, a single shared
`currentEvaluation` accumulator, and pending entries holding only the promise
resolvers (modelled as evalId plus ghost serial). -/
structure OldState where
  pendingEvaluations : List (Nat × Nat)
  evaluationId : Nat
  currentEvaluation : Option EvalResult
  isReady : Bool
  hasWorker : Bool
deriving DecidableEq, Repr

/-- `handleStockfishMessage(message)` of `src/src/lib/chessEngine.ts`: a
score-bearing `info` line overwrites the shared `currentEvaluation`; a
`bestmove` line (with a parseable move, when an evaluation exists) patches its
best move and resolves the *first* pending evaluation, then clears the whole
pending map and the accumulator. -/
def handleStockfishMessage (msg : String) (st : OldState) : OldState × List Event :=
  let st1 :=
    if isInfoScore msg then
      match findScore msg with
      | some (k, n) =>
        { st with currentEvaluation := some ⟨computeScore k n, findPv msg⟩ }
      | none => st
    else st
  if isBestmoveLine msg then
    let st2 :=
      match findBestmove msg, st1.currentEvaluation with
      | some mv, some ev =>
        { st1 with currentEvaluation := some { ev with bestMove := some mv } }
      | _, _ => st1
    match st2.pendingEvaluations.head?, st2.currentEvaluation with
    | some p, some ev =>
      ({ st2 with pendingEvaluations := [], currentEvaluation := none },
       [Event.resolved p.2 ev (0, 0)])
    | _, _ => (st2, [])
  else (st1, [])

end ChessEngineOld

/-! ## The whole system

Main thread (part_002), worker (part_005), engine searches, and the two FIFO
channels, driven by an adversarial list of `Act`s.  Invalid actions (for
example delivering from an empty channel) are no-ops. -/

/-- A message from the main thread to the worker (`self.onmessage` of
part_005).  `evaluate` carries the ghost serial of the submitting request;
position and fen do not influence correlation and are omitted. -/
inductive WorkerMsg where
  | initMsg
  | evaluateMsg (depth : Nat) (serial : Nat)
  | stopMsg
deriving DecidableEq, Repr

/-- A message posted by a worker to the main thread.  `message` carries the
forwarded engine line, the `searchId` stamp (`currentSearchId` of the worker
at forwarding time) and, as ghost data, the generation of the search that
actually produced the line and the epoch of the posting worker. -/
inductive MainMsg where
  | ready (epoch : Nat)
  | message (data : String) (stamp : Nat) (producing : Gen) (epoch : Nat)
  | errorMsg (epoch : Nat)
deriving DecidableEq, Repr

/-- Whole-system state. -/
structure Sys where
  main : ChessEngine.MainState
  clock : Nat
  nextSerial : Nat
  log : List Event
  workerAlive : Bool
  workerReady : Bool
  workerSearchId : Nat
  epoch : Nat
  toWorker : List WorkerMsg
  fromWorker : List MainMsg
  engineActive : Option Gen
  engineStopped : List Gen
  genOwner : List (Gen × Nat)
  startedGens : List Gen
  observedGens : List Gen
  submittedSerials : List Nat
  submittedEpoch : List (Nat × Nat)
deriving DecidableEq, Repr

/-- The adversary's schedule alphabet. -/
inductive Act where
  | initAct
  | workerReadyStep
  | workerProcess
  | deliverMain
  | submit (depth : Nat)
  | stopEval
  | destroyAct
  | tick (t : Nat)
  | emitInfo (s : String)
  | emitBestmoveActive (s : String)
  | emitBestmoveStopped (g : Gen) (s : String)
deriving DecidableEq, Repr

namespace Sys

/-- `initialize()` when no worker exists: construct a fresh worker (fresh
`currentSearchId`, fresh epoch, empty command queue holding the `init`
handshake).  Messages already posted by previous workers remain queued on the
main thread.  A call while a worker exists is out of the modelled lifecycle
(`destroy()` always precedes `initialize()` in `restart()`) and is a no-op. -/
def stepInit (st : Sys) : Sys × List Event :=
  if st.main.hasWorker then (st, [])
  else
    ({ st with
       main := { st.main with hasWorker := true }
       workerAlive := true
       workerReady := false
       workerSearchId := 0
       epoch := st.epoch + 1
       toWorker := [WorkerMsg.initMsg]
       engineActive := none
       engineStopped := [] }, [])

/-- The worker's engine finishing its UCI handshake (`uciok`): the worker
posts `{type: 'ready'}` and marks itself ready. -/
def stepWorkerReady (st : Sys) : Sys × List Event :=
  if st.workerAlive && !st.workerReady then
    ({ st with
       workerReady := true
       fromWorker := st.fromWorker ++ [MainMsg.ready st.epoch] }, [])
  else (st, [])

/-- The worker processing the head of its command queue (part_005
`self.onmessage`): `evaluate` increments `currentSearchId` before starting the
search (stopping the previous one in-engine), `stop` stops the search and
increments `currentSearchId`, `init` is a no-op once the handshake ran. -/
def stepWorkerProcess (st : Sys) : Sys × List Event :=
  if st.workerAlive then
    match st.toWorker with
    | [] => (st, [])
    | WorkerMsg.initMsg :: rest => ({ st with toWorker := rest }, [])
    | WorkerMsg.evaluateMsg _ serial :: rest =>
      if st.workerReady then
        let sid := st.workerSearchId + 1
        let g : Gen := (st.epoch, sid)
        ({ st with
           toWorker := rest
           workerSearchId := sid
           engineStopped :=
             match st.engineActive with
             | some h => st.engineStopped ++ [h]
             | none => st.engineStopped
           engineActive := some g
           genOwner := st.genOwner ++ [(g, serial)]
           startedGens := st.startedGens ++ [g] }, [])
      else
        ({ st with
           toWorker := rest
           fromWorker := st.fromWorker ++ [MainMsg.errorMsg st.epoch] }, [])
    | WorkerMsg.stopMsg :: rest =>
      if st.workerReady then
        ({ st with
           toWorker := rest
           workerSearchId := st.workerSearchId + 1
           engineStopped :=
             match st.engineActive with
             | some h => st.engineStopped ++ [h]
             | none => st.engineStopped
           engineActive := none }, [])
      else ({ st with toWorker := rest }, [])
  else (st, [])

/-- The engine emitting an output line while its current search runs; the
worker's `stockfish.onmessage` forwards it immediately, stamped with the
worker's current `currentSearchId`. -/
def stepEmitInfo (st : Sys) (s : String) : Sys × List Event :=
  if st.workerAlive then
    match st.engineActive with
    | some g =>
      ({ st with
         fromWorker :=
           st.fromWorker ++ [MainMsg.message s st.workerSearchId g st.epoch] }, [])
    | none => (st, [])
  else (st, [])

/-- The engine completing its current search: it emits the final line (a
`bestmove ...` text chosen by the adversary) and becomes idle; forwarded with
the worker's current stamp. -/
def stepEmitBestmoveActive (st : Sys) (s : String) : Sys × List Event :=
  if st.workerAlive then
    match st.engineActive with
    | some g =>
      ({ st with
         engineActive := none
         fromWorker :=
           st.fromWorker ++ [MainMsg.message s st.workerSearchId g st.epoch] }, [])
    | none => (st, [])
  else (st, [])

/-- A search that was told to stop emitting its final `bestmove` line later;
forwarded with the worker's *current* stamp, which may already belong to a
newer search. -/
def stepEmitBestmoveStopped (st : Sys) (g : Gen) (s : String) : Sys × List Event :=
  if st.workerAlive && g ∈ st.engineStopped then
    ({ st with
       engineStopped := st.engineStopped.erase g
       fromWorker :=
         st.fromWorker ++ [MainMsg.message s st.workerSearchId g st.epoch] }, [])
  else (st, [])

/-- The main thread's event loop delivering the oldest posted worker message:
`ready` runs the `onmessage` ready branch (sets `isReady`), `message` runs
`handleStockfishMessage(data, searchId)`, `error` rejects the long-settled
initialize promise (a no-op). -/
def stepDeliverMain (st : Sys) : Sys × List Event :=
  match st.fromWorker with
  | [] => (st, [])
  | MainMsg.ready _ :: rest =>
    ({ st with main := { st.main with isReady := true }, fromWorker := rest }, [])
  | MainMsg.message data stamp g _ :: rest =>
    let r := ChessEngine.handleStockfishMessage data (some stamp) g st.main
    ({ st with
       main := r.1
       fromWorker := rest
       observedGens := st.observedGens ++ [g] }, r.2)
  | MainMsg.errorMsg _ :: rest => ({ st with fromWorker := rest }, [])

/-- `getEvaluation(fen, depth)`: throws synchronously when the engine is not
initialized (modelled as a no-op that submits nothing); otherwise runs the
promise executor and posts the `evaluate` command. -/
def stepSubmit (st : Sys) (depth : Nat) : Sys × List Event :=
  if st.main.hasWorker && st.main.isReady then
    let r := ChessEngine.getEvaluationStep st.main st.nextSerial st.clock
    ({ st with
       main := r.1
       nextSerial := st.nextSerial + 1
       toWorker := st.toWorker ++ [WorkerMsg.evaluateMsg depth st.nextSerial]
       submittedSerials := st.submittedSerials ++ [st.nextSerial]
       submittedEpoch := st.submittedEpoch ++ [(st.nextSerial, st.epoch)] }, r.2)
  else (st, [])

/-- `stopEvaluation()`: post `stop` to the worker and reject everything
pending (both only when a ready worker exists). -/
def stepStop (st : Sys) : Sys × List Event :=
  let r := ChessEngine.stopEvaluationStep st.main
  if st.main.hasWorker && st.main.isReady then
    ({ st with main := r.1, toWorker := st.toWorker ++ [WorkerMsg.stopMsg] }, r.2)
  else ({ st with main := r.1 }, r.2)

/-- `destroy()`: run the main-thread teardown and terminate the worker.  The
worker and its command queue die; messages it already posted stay queued on
the main thread. -/
def stepDestroy (st : Sys) : Sys × List Event :=
  let r := ChessEngine.destroyStep st.main
  if st.main.hasWorker then
    ({ st with
       main := r.1
       workerAlive := false
       workerReady := false
       toWorker := []
       engineActive := none
       engineStopped := [] }, r.2)
  else ({ st with main := r.1 }, r.2)

/-- Wall-clock time advancing to `t`: every armed evaluation timer whose
deadline has passed fires. -/
def stepTick (st : Sys) (t : Nat) : Sys × List Event :=
  let t' := max st.clock t
  let r := ChessEngine.tickStep st.main t'
  ({ st with main := r.1, clock := t' }, r.2)

/-- One scheduler step; the emitted events are appended to the log. -/
def step (st : Sys) (a : Act) : Sys :=
  let r :=
    match a with
    | Act.initAct => stepInit st
    | Act.workerReadyStep => stepWorkerReady st
    | Act.workerProcess => stepWorkerProcess st
    | Act.deliverMain => stepDeliverMain st
    | Act.submit depth => stepSubmit st depth
    | Act.stopEval => stepStop st
    | Act.destroyAct => stepDestroy st
    | Act.tick t => stepTick st t
    | Act.emitInfo s => stepEmitInfo st s
    | Act.emitBestmoveActive s => stepEmitBestmoveActive st s
    | Act.emitBestmoveStopped g s => stepEmitBestmoveStopped st g s
  { r.1 with log := st.log ++ r.2 }

/-- The events appended by one step. -/
def stepEvents (st : Sys) (a : Act) : List Event :=
  match a with
  | Act.initAct => (stepInit st).2
  | Act.workerReadyStep => (stepWorkerReady st).2
  | Act.workerProcess => (stepWorkerProcess st).2
  | Act.deliverMain => (stepDeliverMain st).2
  | Act.submit depth => (stepSubmit st depth).2
  | Act.stopEval => (stepStop st).2
  | Act.destroyAct => (stepDestroy st).2
  | Act.tick t => (stepTick st t).2
  | Act.emitInfo s => (stepEmitInfo st s).2
  | Act.emitBestmoveActive s => (stepEmitBestmoveActive st s).2
  | Act.emitBestmoveStopped g s => (stepEmitBestmoveStopped st g s).2

/-- Run a schedule from a state. -/
def runFrom (st : Sys) (as : List Act) : Sys := as.foldl step st

/-- The pristine system: module loaded, `initialize()` not yet called. -/
def init0 : Sys :=
  { main := ⟨[], 0, [], false, false⟩
    clock := 0
    nextSerial := 0
    log := []
    workerAlive := false
    workerReady := false
    workerSearchId := 0
    epoch := 0
    toWorker := []
    fromWorker := []
    engineActive := none
    engineStopped := []
    genOwner := []
    startedGens := []
    observedGens := []
    submittedSerials := []
    submittedEpoch := [] }

/-- Run a schedule from the pristine system. -/
def run (as : List Act) : Sys := runFrom init0 as

/-- Serials of the currently pending evaluations. -/
def pendingSerials (st : Sys) : List Nat :=
  st.main.pendingEvaluations.map (fun p => p.serial)

end Sys

/-! ## Observables of the event log -/

/-- The serial (promise identity) an event concerns. -/
def eventSerial : Event → Nat
  | Event.submitted s => s
  | Event.resolved s _ _ => s
  | Event.rejected s _ => s

/-- Outcome events settle a promise; `submitted` does not. -/
def isOutcome : Event → Bool
  | Event.submitted _ => false
  | Event.resolved _ _ _ => true
  | Event.rejected _ _ => true

/-- Is this event a resolution (delivery of a real `EvaluationResult`)? -/
def isResolutionEv : Event → Bool
  | Event.resolved _ _ _ => true
  | _ => false

/-- How often the promise with this serial was settled in the log. -/
def outcomeCount (s : Nat) (log : List Event) : Nat :=
  log.countP (fun ev => isOutcome ev && eventSerial ev == s)

/-- How often the promise with this serial was resolved with a real result. -/
def resolvedCount (s : Nat) (log : List Event) : Nat :=
  log.countP (fun ev => isResolutionEv ev && eventSerial ev == s)

/-- Total number of real-result resolutions in the log. -/
def resolvedTotal (log : List Event) : Nat := log.countP isResolutionEv

/-- Does this event mention the given serial at all? -/
def mentions (s : Nat) (ev : Event) : Bool := eventSerial ev == s

/-- All submissions of the log happen before its first resolution (the
"N rapid `evaluate()` calls issued before any of them resolves" premise,
read off the event order). -/
def submissionsFirst (log : List Event) : Bool :=
  (log.dropWhile (fun ev => !isResolutionEv ev)).all
    (fun ev => isOutcome ev)

/-- Claim C1's invariant: every delivered `EvaluationResult` was produced by
the engine search that its own request caused (the ghost `genOwner` map sends
the producing generation back to the serial it was started for). -/
def ResultsCorrectlyAttributed (st : Sys) : Prop :=
  ∀ s r g, Event.resolved s r g ∈ st.log → (g, s) ∈ st.genOwner

/-- Claim C9's temporal property: no request is ever resolved by an engine
line produced under an earlier worker epoch than the one the request was
submitted in (pre-destroy output never resolves a post-restart request). -/
def NoCrossEpochResolution (st : Sys) : Prop :=
  ∀ s r g, Event.resolved s r g ∈ st.log →
    ∀ e, (s, e) ∈ st.submittedEpoch → ¬ g.1 < e

/-! ## Concrete adversarial schedules -/

/-- Two requests: the first is superseded before its engine output arrives,
and the output of *its* search (generation (1,1)) then resolves the second
request via the first-unmapped-wins fallback. -/
def ceMisattributed : List Act :=
  [Act.initAct, Act.workerReadyStep, Act.deliverMain,
   Act.submit 15, Act.workerProcess, Act.workerProcess,
   Act.emitInfo "info score cp 50 pv a2a3",
   Act.emitBestmoveActive "bestmove a2a3",
   Act.submit 15,
   Act.deliverMain, Act.deliverMain]

/-- Two requests, the second issued before the first resolves, yet both
resolve with real results: the first search's output is delivered after the
second submission, but the first request is already generation-mapped and
therefore survives the submission. -/
def ceTwoResolved : List Act :=
  [Act.initAct, Act.workerReadyStep, Act.deliverMain,
   Act.submit 15, Act.workerProcess, Act.workerProcess,
   Act.emitInfo "info score cp 30 pv e2e4",
   Act.deliverMain,
   Act.submit 15,
   Act.emitBestmoveActive "bestmove e2e4",
   Act.deliverMain,
   Act.workerProcess,
   Act.emitInfo "info score cp -10 pv d7d5",
   Act.deliverMain,
   Act.emitBestmoveActive "bestmove d7d5",
   Act.deliverMain]

/-- A request whose search emits only a score-free `info depth 1 seldepth 1`
line: the line is observed (and carries the request's generation stamp) but
establishes no mapping, so the next submission still supersedes the
request. -/
def ceObservedButUnmapped : List Act :=
  [Act.initAct, Act.workerReadyStep, Act.deliverMain,
   Act.submit 15, Act.workerProcess, Act.workerProcess,
   Act.emitInfo "info depth 1 seldepth 1",
   Act.deliverMain]

/-- Prefix up to (excluding) the stop: one request, its search's two output
lines already posted but not yet delivered. -/
def ceStopPre : List Act :=
  [Act.initAct, Act.workerReadyStep, Act.deliverMain,
   Act.submit 15, Act.workerProcess, Act.workerProcess,
   Act.emitInfo "info score cp 21 pv e2e4",
   Act.emitBestmoveActive "bestmove e2e4"]

/-- After the stop a fresh request is submitted; the delayed pre-stop output
of generation (1,1) is then delivered and resolves it. -/
def ceStopStale : List Act :=
  ceStopPre ++ [Act.stopEval, Act.submit 15, Act.deliverMain, Act.deliverMain]

/-- The stale-ready race across `destroy()`/`initialize()`: the first worker's
`ready` is delivered only after the first destroy/initialize, re-enabling
submissions; the second worker's search output is still queued when the
second destroy/initialize happens, its stale `ready` re-enables submissions
again, and the queued epoch-2 output then resolves the epoch-3 request. -/
def ceCrossEpoch : List Act :=
  [Act.initAct, Act.workerReadyStep, Act.destroyAct,
   Act.initAct, Act.deliverMain,
   Act.submit 15, Act.workerReadyStep, Act.workerProcess, Act.workerProcess,
   Act.emitInfo "info score cp 77 pv g1f3",
   Act.emitBestmoveActive "bestmove g1f3",
   Act.destroyAct,
   Act.initAct, Act.deliverMain,
   Act.submit 15,
   Act.deliverMain, Act.deliverMain]

/-- A completion line carrying no parseable move (`bestmove (none)`, the
engine's output on stalemate/checkmate positions). -/
def ceBestmoveNone : ChessEngine.MainState × List Event :=
  ChessEngine.handleStockfishMessage "bestmove (none)" (some 1) (1, 1)
    ⟨[⟨1, 0, 30, none⟩], 1, [], true, true⟩

namespace ChessEngine

/-- Identity-relevant part of a pending entry: evalId, serial, deadline. -/
def sig (p : PendingEntry) : Nat × Nat × Nat := (p.evalId, p.serial, p.deadline)

/-- Identity parts of a pending list. -/
def sigs (l : List PendingEntry) : List (Nat × Nat × Nat) := l.map sig

theorem sigs_serials (l : List PendingEntry) :
    l.map (fun p => p.serial) = (sigs l).map (fun t => t.2.1) := by
  simp [sigs, sig, List.map_map, Function.comp]

theorem sigs_evalIds (l : List PendingEntry) :
    l.map (fun p => p.evalId) = (sigs l).map (fun t => t.1) := by
  simp [sigs, sig, List.map_map, Function.comp]

theorem sigs_deadlines (l : List PendingEntry) :
    l.map (fun p => p.deadline) = (sigs l).map (fun t => t.2.2) := by
  simp [sigs, sig, List.map_map, Function.comp]

theorem updateEval_sigs (l : List PendingEntry) (e : Nat) (v : EvalResult) :
    sigs (updateEval l e v) = sigs l := by
  simp only [sigs, updateEval, List.map_map]
  apply List.map_congr_left
  intro p _
  by_cases h : p.evalId = e <;> simp [h, sig, Function.comp]

theorem removePending_sigs (l : List PendingEntry) (e : Nat) :
    sigs (removePending l e) = (sigs l).filter (fun t => t.1 ≠ e) := by
  induction l with
  | nil => rfl
  | cons p rest ih =>
    by_cases h : p.evalId = e <;>
      simp [sigs, removePending, List.filter, h, sig] at * <;>
      simpa [sigs, removePending] using ih

end ChessEngine

namespace ChessEngine

theorem eraseByValue_sublist (m : List (Nat × Nat)) (e : Nat) :
    List.Sublist (eraseByValue m e) m := by
  induction m with
  | nil => simp [eraseByValue]
  | cons q rest ih =>
    by_cases h : q.2 = e
    · simp only [eraseByValue, h, if_pos]
      exact List.sublist_cons_self q rest
    · simp only [eraseByValue, h, if_neg, not_false_iff]
      exact ih.cons₂ q

theorem mapValues_sublist {m m' : List (Nat × Nat)}
    (h : List.Sublist m' m) : List.Sublist (mapValues m') (mapValues m) := h.map _

theorem eraseByValue_not_mem (m : List (Nat × Nat)) (e : Nat)
    (h : (mapValues m).Nodup) : e ∉ mapValues (eraseByValue m e) := by
  induction m with
  | nil => simp [eraseByValue, mapValues]
  | cons q rest ih =>
    simp only [mapValues, List.map_cons, List.nodup_cons] at h
    by_cases hq : q.2 = e
    · intro hc
      simp only [eraseByValue, hq, if_pos] at hc
      exact h.1 (hq ▸ hc)
    · intro hc
      simp only [eraseByValue, hq, if_neg, not_false_iff, mapValues,
        List.map_cons, List.mem_cons] at hc
      rcases hc with hc | hc
      · exact hq hc.symm
      · exact ih h.2 hc

theorem removeKey_sublist (m : List (Nat × Nat)) (s : Nat) :
    List.Sublist (removeKey m s) m := List.filter_sublist m

theorem foldErase_sublist (es : List Nat) (m : List (Nat × Nat)) :
    List.Sublist (es.foldl eraseByValue m) m := by
  induction es generalizing m with
  | nil => simp
  | cons x rest ih =>
    exact List.Sublist.trans (ih (eraseByValue m x)) (eraseByValue_sublist m x)

theorem foldErase_not_mem (es : List Nat) (m : List (Nat × Nat)) (e : Nat)
    (hnd : (mapValues m).Nodup) (he : e ∈ es) :
    e ∉ mapValues (es.foldl eraseByValue m) := by
  induction es generalizing m with
  | nil => cases he
  | cons x rest ih =>
    simp only [List.foldl_cons]
    have hnd' : (mapValues (eraseByValue m x)).Nodup :=
      ((mapValues_sublist (eraseByValue_sublist m x)).nodup hnd)
    rcases List.mem_cons.mp he with hex | hex
    · subst hex
      have h0 : e ∉ mapValues (eraseByValue m e) := eraseByValue_not_mem m e hnd
      intro hc
      exact h0 ((mapValues_sublist (foldErase_sublist rest (eraseByValue m e))).mem hc)
    · exact ih _ hnd' hex

end ChessEngine

namespace ChessEngine

theorem resolveSid_map (m : List (Nat × Nat)) (s : Nat) (pend : List PendingEntry) :
    (resolveSid m s pend).2 = m ∨
    ∃ e, isMappedE m e = false ∧ (resolveSid m s pend).2 = m ++ [(s, e)] := by
  unfold resolveSid
  cases h : lookupSid m s with
  | some e => left; rfl
  | none =>
    by_cases hp : pend.isEmpty
    · left; simp [hp]
    · cases hf : firstUnmapped pend m with
      | none => left; simp [hp, hf]
      | some e =>
        right
        refine ⟨e, ?_, by simp [hp, hf]⟩
        unfold firstUnmapped at hf
        rcases Option.map_eq_some'.mp hf with ⟨p, hfind, hpe⟩
        have := List.find?_some hfind
        simp only [Bool.not_eq_true'] at this
        rw [← hpe]
        exact this

theorem resolveSid_values_nodup (m : List (Nat × Nat)) (s : Nat)
    (pend : List PendingEntry) (h : (mapValues m).Nodup) :
    (mapValues (resolveSid m s pend).2).Nodup := by
  rcases resolveSid_map m s pend with hm | ⟨e, he, hm⟩
  · rw [hm]; exact h
  · rw [hm]
    simp only [mapValues, List.map_append, List.map_cons, List.map_nil]
    rw [List.nodup_append]
    refine ⟨h, List.nodup_singleton e, ?_⟩
    intro x hx hx'
    simp only [List.mem_singleton] at hx'
    subst hx'
    unfold isMappedE at he
    simp only [decide_eq_false_iff_not] at he
    exact he hx

theorem infoPhase_sigs (msg : String) (sid : Option Nat) (st : MainState) :
    sigs (infoPhase msg sid st).pendingEvaluations = sigs st.pendingEvaluations := by
  unfold infoPhase
  by_cases h : isInfoScore msg
  · simp only [h, if_pos]
    cases hs : findScore msg with
    | none => rfl
    | some kn =>
      obtain ⟨k, n⟩ := kn
      cases sid with
      | none => rfl
      | some s =>
        cases hr : (resolveSid st.searchIdToEvalId s st.pendingEvaluations).1 with
        | none => simp only [hr]
        | some e => simp only [hr, updateEval_sigs]
  · simp [h]

theorem infoPhase_evaluationId (msg : String) (sid : Option Nat) (st : MainState) :
    (infoPhase msg sid st).evaluationId = st.evaluationId := by
  unfold infoPhase
  by_cases h : isInfoScore msg
  · simp only [h, if_pos]
    cases hs : findScore msg with
    | none => rfl
    | some kn =>
      obtain ⟨k, n⟩ := kn
      cases sid with
      | none => rfl
      | some s =>
        cases hr : (resolveSid st.searchIdToEvalId s st.pendingEvaluations).1 with
        | none => simp only [hr]
        | some e => simp only [hr]
  · simp [h]

theorem infoPhase_values_nodup (msg : String) (sid : Option Nat) (st : MainState)
    (h : (mapValues st.searchIdToEvalId).Nodup) :
    (mapValues (infoPhase msg sid st).searchIdToEvalId).Nodup := by
  unfold infoPhase
  by_cases hi : isInfoScore msg
  · simp only [hi, if_pos]
    cases hs : findScore msg with
    | none => exact h
    | some kn =>
      obtain ⟨k, n⟩ := kn
      cases sid with
      | none => exact h
      | some s =>
        cases hr : (resolveSid st.searchIdToEvalId s st.pendingEvaluations).1 with
        | none =>
          simp only [hr]
          exact resolveSid_values_nodup st.searchIdToEvalId s st.pendingEvaluations h
        | some e =>
          simp only [hr]
          exact resolveSid_values_nodup st.searchIdToEvalId s st.pendingEvaluations h
  · simpa [hi] using h

end ChessEngine

namespace ChessEngine

theorem bestmovePhase_spec (msg : String) (sid : Option Nat) (prod : Gen)
    (st : MainState) :
    ((bestmovePhase msg sid prod st).1.pendingEvaluations = st.pendingEvaluations ∧
     (bestmovePhase msg sid prod st).2 = []) ∨
    (∃ p, p ∈ st.pendingEvaluations ∧
      (bestmovePhase msg sid prod st).1.pendingEvaluations =
        removePending st.pendingEvaluations p.evalId ∧
      ((∃ r, (bestmovePhase msg sid prod st).2 = [Event.resolved p.serial r prod]) ∨
       (bestmovePhase msg sid prod st).2 =
         [Event.rejected p.serial "Evaluation incomplete"])) := by
  unfold bestmovePhase
  by_cases hb : isBestmoveLine msg
  · simp only [hb, if_pos]
    cases sid with
    | none => left; exact ⟨rfl, rfl⟩
    | some s =>
      cases hr : (resolveSid st.searchIdToEvalId s st.pendingEvaluations).1 with
      | none => left; simp [hr]
      | some e =>
        cases hf : st.pendingEvaluations.find? (fun p => p.evalId = e) with
        | none => left; simp [hr, hf]
        | some p =>
          right
          have hpe : p.evalId = e := by
            have := List.find?_some hf
            simpa using this
          refine ⟨p, List.mem_of_find?_eq_some hf, ?_, ?_⟩
          · simp only [hr, hf, hpe]
          · simp only [hr, hf]
            cases hbm : findBestmove msg with
            | some mv =>
              left
              cases hev : p.evaluation with
              | some ev => exact ⟨{ ev with bestMove := some mv }, rfl⟩
              | none => exact ⟨⟨0, some mv⟩, rfl⟩
            | none =>
              cases hev : p.evaluation with
              | some ev => left; exact ⟨ev, rfl⟩
              | none => right; rfl
  · left; simp only [hb, if_neg, not_false_iff]; exact ⟨rfl, rfl⟩

theorem bestmovePhase_evaluationId (msg : String) (sid : Option Nat) (prod : Gen)
    (st : MainState) :
    (bestmovePhase msg sid prod st).1.evaluationId = st.evaluationId := by
  unfold bestmovePhase
  by_cases hb : isBestmoveLine msg
  · simp only [hb, if_pos]
    cases sid with
    | none => rfl
    | some s =>
      cases hr : (resolveSid st.searchIdToEvalId s st.pendingEvaluations).1 with
      | none => simp only [hr]
      | some e =>
        cases hf : st.pendingEvaluations.find? (fun p => p.evalId = e) with
        | none => simp only [hr, hf]
        | some p => simp only [hr, hf]
  · simp [hb]

theorem bestmovePhase_hasWorker (msg : String) (sid : Option Nat) (prod : Gen)
    (st : MainState) :
    (bestmovePhase msg sid prod st).1.hasWorker = st.hasWorker := by
  unfold bestmovePhase
  by_cases hb : isBestmoveLine msg
  · simp only [hb, if_pos]
    cases sid with
    | none => rfl
    | some s =>
      cases hr : (resolveSid st.searchIdToEvalId s st.pendingEvaluations).1 with
      | none => simp only [hr]
      | some e =>
        cases hf : st.pendingEvaluations.find? (fun p => p.evalId = e) with
        | none => simp only [hr, hf]
        | some p => simp only [hr, hf]
  · simp [hb]

theorem bestmovePhase_values_nodup (msg : String) (sid : Option Nat) (prod : Gen)
    (st : MainState) (h : (mapValues st.searchIdToEvalId).Nodup) :
    (mapValues (bestmovePhase msg sid prod st).1.searchIdToEvalId).Nodup := by
  unfold bestmovePhase
  by_cases hb : isBestmoveLine msg
  · simp only [hb, if_pos]
    cases sid with
    | none => exact h
    | some s =>
      have hnd := resolveSid_values_nodup st.searchIdToEvalId s st.pendingEvaluations h
      cases hr : (resolveSid st.searchIdToEvalId s st.pendingEvaluations).1 with
      | none => simp only [hr]; exact hnd
      | some e =>
        cases hf : st.pendingEvaluations.find? (fun p => p.evalId = e) with
        | none => simp only [hr, hf]; exact hnd
        | some p =>
          simp only [hr, hf]
          exact (mapValues_sublist ((removeKey_sublist _ s).trans
            (eraseByValue_sublist _ e))).nodup hnd
  · simpa [hb] using h

theorem infoPhase_hasWorker (msg : String) (sid : Option Nat) (st : MainState) :
    (infoPhase msg sid st).hasWorker = st.hasWorker := by
  unfold infoPhase
  by_cases h : isInfoScore msg
  · simp only [h, if_pos]
    cases hs : findScore msg with
    | none => rfl
    | some kn =>
      obtain ⟨k, n⟩ := kn
      cases sid with
      | none => rfl
      | some s =>
        cases hr : (resolveSid st.searchIdToEvalId s st.pendingEvaluations).1 with
        | none => simp only [hr]
        | some e => simp only [hr]
  · simp [h]

end ChessEngine

namespace ChessEngine

theorem resolveSid_nil (s : Nat) : resolveSid [] s [] = (none, []) := rfl

/-- With nothing pending and no mapping, `handleStockfishMessage` is inert:
no event is emitted and the state is unchanged. -/
theorem handle_on_empty (msg : String) (sid : Option Nat) (prod : Gen)
    (st : MainState) (hp : st.pendingEvaluations = [])
    (hm : st.searchIdToEvalId = []) :
    handleStockfishMessage msg sid prod st = (st, []) := by
  obtain ⟨pend, eid, m, ir, hw⟩ := st
  simp only at hp hm
  subst hp; subst hm
  have hinfo : infoPhase msg sid ⟨[], eid, [], ir, hw⟩ = ⟨[], eid, [], ir, hw⟩ := by
    unfold infoPhase
    by_cases h : isInfoScore msg
    · simp only [h, if_pos]
      cases hs : findScore msg with
      | none => rfl
      | some kn =>
        obtain ⟨k, n⟩ := kn
        cases sid with
        | none => rfl
        | some s => simp [resolveSid_nil, updateEval]
    · simp [h]
  unfold handleStockfishMessage
  rw [hinfo]
  unfold bestmovePhase
  by_cases hb : isBestmoveLine msg
  · simp only [hb, if_pos]
    cases sid with
    | none => rfl
    | some s => simp [resolveSid_nil]
  · simp [hb]

end ChessEngine

namespace Sys

theorem step_log (st : Sys) (a : Act) :
    (step st a).log = st.log ++ stepEvents st a := by
  cases a <;> rfl

theorem step_nextSerial (st : Sys) (a : Act) :
    st.nextSerial ≤ (step st a).nextSerial := by
  cases a <;>
    simp only [step, stepInit, stepWorkerReady, stepWorkerProcess, stepDeliverMain,
      stepSubmit, stepStop, stepDestroy, stepTick, stepEmitInfo,
      stepEmitBestmoveActive, stepEmitBestmoveStopped] <;>
    (repeat' split) <;> simp

theorem step_clock (st : Sys) (a : Act) :
    st.clock ≤ (step st a).clock := by
  cases a <;>
    simp only [step, stepInit, stepWorkerReady, stepWorkerProcess, stepDeliverMain,
      stepSubmit, stepStop, stepDestroy, stepTick, stepEmitInfo,
      stepEmitBestmoveActive, stepEmitBestmoveStopped] <;>
    (repeat' split) <;> simp

end Sys

namespace ChessEngine

/-- Serials of a pending list. -/
def serialsOf (l : List PendingEntry) : List Nat := l.map (fun p => p.serial)

/-- EvalIds of a pending list. -/
def evalIdsOf (l : List PendingEntry) : List Nat := l.map (fun p => p.evalId)

/-- Deadlines of a pending list. -/
def deadlinesOf (l : List PendingEntry) : List Nat := l.map (fun p => p.deadline)

theorem serialsOf_eq_of_sigs {l l' : List PendingEntry} (h : sigs l = sigs l') :
    serialsOf l = serialsOf l' := by
  have := congrArg (List.map (fun t : Nat × Nat × Nat => t.2.1)) h
  simpa [← sigs_serials] using this

theorem evalIdsOf_eq_of_sigs {l l' : List PendingEntry} (h : sigs l = sigs l') :
    evalIdsOf l = evalIdsOf l' := by
  have := congrArg (List.map (fun t : Nat × Nat × Nat => t.1)) h
  simpa [← sigs_evalIds] using this

theorem deadlinesOf_eq_of_sigs {l l' : List PendingEntry} (h : sigs l = sigs l') :
    deadlinesOf l = deadlinesOf l' := by
  have := congrArg (List.map (fun t : Nat × Nat × Nat => t.2.2)) h
  simpa [← sigs_deadlines] using this

theorem serialsOf_removePending_sublist (l : List PendingEntry) (e : Nat) :
    List.Sublist (serialsOf (removePending l e)) (serialsOf l) :=
  (List.filter_sublist l).map _

theorem evalIdsOf_removePending_sublist (l : List PendingEntry) (e : Nat) :
    List.Sublist (evalIdsOf (removePending l e)) (evalIdsOf l) :=
  (List.filter_sublist l).map _

theorem deadlinesOf_removePending_sublist (l : List PendingEntry) (e : Nat) :
    List.Sublist (deadlinesOf (removePending l e)) (deadlinesOf l) :=
  (List.filter_sublist l).map _

end ChessEngine

theorem outcomeCount_append (s : Nat) (l1 l2 : List Event) :
    outcomeCount s (l1 ++ l2) = outcomeCount s l1 + outcomeCount s l2 :=
  List.countP_append _ _ _

theorem outcomeCount_single_ne (s : Nat) (ev : Event) (h : eventSerial ev ≠ s) :
    outcomeCount s [ev] = 0 := by
  cases ev <;>
    simp_all [outcomeCount, eventSerial, isOutcome, List.countP_cons, List.countP_nil]

theorem outcomeCount_rejections (s : Nat) (m : String) (l : List PendingEntry) :
    outcomeCount s (l.map (fun p => Event.rejected p.serial m)) =
      (ChessEngine.serialsOf l).count s := by
  induction l with
  | nil => rfl
  | cons p rest ih =>
    simp only [List.map_cons, outcomeCount, List.countP_cons, ChessEngine.serialsOf,
      List.count_cons] at *
    rw [ih]
    simp [isOutcome, eventSerial]

theorem resolved_mem_outcomeCount {s : Nat} {r : EvalResult} {g : Gen}
    {log : List Event} (h : Event.resolved s r g ∈ log) : 0 < outcomeCount s log := by
  rw [outcomeCount, List.countP_pos_iff]
  exact ⟨_, h, by simp [isOutcome, eventSerial]⟩

theorem rejected_mem_outcomeCount {s : Nat} {m : String}
    {log : List Event} (h : Event.rejected s m ∈ log) : 0 < outcomeCount s log := by
  rw [outcomeCount, List.countP_pos_iff]
  exact ⟨_, h, by simp [isOutcome, eventSerial]⟩

/-- Main-thread well-formedness relative to a log, serial bound and clock:
pending serials are fresh-bounded, pairwise distinct and unsettled; evalIds
are distinct and bounded by `evaluationId`; deadlines are within one timeout
of the clock; no future serial is settled; no serial is settled twice; the
mapping's values are pairwise distinct. -/
structure WFm (pend : List PendingEntry) (m : List (Nat × Nat)) (eid : Nat)
    (log : List Event) (ns clk : Nat) : Prop where
  serial_lt : ∀ s ∈ ChessEngine.serialsOf pend, s < ns
  serial_nodup : (ChessEngine.serialsOf pend).Nodup
  evalId_nodup : (ChessEngine.evalIdsOf pend).Nodup
  evalId_le : ∀ e ∈ ChessEngine.evalIdsOf pend, e ≤ eid
  deadline_le : ∀ d ∈ ChessEngine.deadlinesOf pend, d ≤ clk + 30
  pend_out : ∀ s ∈ ChessEngine.serialsOf pend, outcomeCount s log = 0
  fut_out : ∀ s, ns ≤ s → outcomeCount s log = 0
  out_le : ∀ s, outcomeCount s log ≤ 1
  val_nodup : (ChessEngine.mapValues m).Nodup

namespace ChessEngine

/-- `handleStockfishMessage` preserves main-thread well-formedness: it settles
at most one pending evaluation, with exactly one outcome event for it. -/
theorem handle_preserves_wfm (msg : String) (sid : Option Nat) (prod : Gen)
    (st : MainState) (log : List Event) (ns clk : Nat)
    (h : WFm st.pendingEvaluations st.searchIdToEvalId st.evaluationId log ns clk) :
    WFm (handleStockfishMessage msg sid prod st).1.pendingEvaluations
      (handleStockfishMessage msg sid prod st).1.searchIdToEvalId
      (handleStockfishMessage msg sid prod st).1.evaluationId
      (log ++ (handleStockfishMessage msg sid prod st).2) ns clk := by
  unfold handleStockfishMessage
  have hsig1 := infoPhase_sigs msg sid st
  have hser1 : serialsOf (infoPhase msg sid st).pendingEvaluations =
      serialsOf st.pendingEvaluations := serialsOf_eq_of_sigs hsig1
  have heid1 : evalIdsOf (infoPhase msg sid st).pendingEvaluations =
      evalIdsOf st.pendingEvaluations := evalIdsOf_eq_of_sigs hsig1
  have hdl1 : deadlinesOf (infoPhase msg sid st).pendingEvaluations =
      deadlinesOf st.pendingEvaluations := deadlinesOf_eq_of_sigs hsig1
  have hval1 : (mapValues (infoPhase msg sid st).searchIdToEvalId).Nodup :=
    infoPhase_values_nodup msg sid st h.val_nodup
  have hval2 : (mapValues
      (bestmovePhase msg sid prod (infoPhase msg sid st)).1.searchIdToEvalId).Nodup :=
    bestmovePhase_values_nodup msg sid prod _ hval1
  have heq2 : (bestmovePhase msg sid prod (infoPhase msg sid st)).1.evaluationId =
      st.evaluationId := by
    rw [bestmovePhase_evaluationId, infoPhase_evaluationId]
  rcases bestmovePhase_spec msg sid prod (infoPhase msg sid st) with
    ⟨hpend, hev⟩ | ⟨p, hp, hpend, hev⟩
  · rw [hev, List.append_nil]
    refine ⟨?_, ?_, ?_, ?_, ?_, ?_, h.fut_out, h.out_le, hval2⟩
    · rw [hpend, hser1]; exact h.serial_lt
    · rw [hpend, hser1]; exact h.serial_nodup
    · rw [hpend, heid1]; exact h.evalId_nodup
    · rw [hpend, heid1, heq2]; exact h.evalId_le
    · rw [hpend, hdl1]; exact h.deadline_le
    · rw [hpend, hser1]; exact h.pend_out
  · have hpser : p.serial ∈ serialsOf st.pendingEvaluations := by
      rw [← hser1]
      exact List.mem_map_of_mem _ hp
    have hcount1 : ∀ s, s ≠ p.serial →
        outcomeCount s (bestmovePhase msg sid prod (infoPhase msg sid st)).2 = 0 := by
      intro s hs
      rcases hev with ⟨r, hev⟩ | hev <;> rw [hev] <;>
        exact outcomeCount_single_ne s _ (by simp [eventSerial]; omega)
    have hcountp :
        outcomeCount p.serial (bestmovePhase msg sid prod (infoPhase msg sid st)).2 ≤ 1 := by
      rcases hev with ⟨r, hev⟩ | hev <;> rw [hev] <;>
        simp [outcomeCount, List.countP_cons, List.countP_nil, isOutcome, eventSerial]
    have hremss : List.Sublist
        (serialsOf (bestmovePhase msg sid prod (infoPhase msg sid st)).1.pendingEvaluations)
        (serialsOf st.pendingEvaluations) := by
      rw [hpend, ← hser1]
      exact serialsOf_removePending_sublist _ _
    have hremid : List.Sublist
        (evalIdsOf (bestmovePhase msg sid prod (infoPhase msg sid st)).1.pendingEvaluations)
        (evalIdsOf st.pendingEvaluations) := by
      rw [hpend, ← heid1]
      exact evalIdsOf_removePending_sublist _ _
    have hremdl : List.Sublist
        (deadlinesOf (bestmovePhase msg sid prod (infoPhase msg sid st)).1.pendingEvaluations)
        (deadlinesOf st.pendingEvaluations) := by
      rw [hpend, ← hdl1]
      exact deadlinesOf_removePending_sublist _ _
    have hser_nodup1 : (serialsOf (infoPhase msg sid st).pendingEvaluations).Nodup := by
      rw [hser1]; exact h.serial_nodup
    have hnotmem : p.serial ∉
        serialsOf (bestmovePhase msg sid prod (infoPhase msg sid st)).1.pendingEvaluations := by
      rw [hpend]
      intro hc
      simp only [serialsOf, removePending, List.mem_map] at hc
      obtain ⟨q, hqmem, hqser⟩ := hc
      have hqpend := List.mem_of_mem_filter hqmem
      have hqne : q.evalId ≠ p.evalId := by
        have := List.of_mem_filter hqmem
        simpa using this
      have hqp : q = p := by
        have hinj := List.inj_on_of_nodup_map
          (by simpa [serialsOf] using hser_nodup1)
        exact hinj hqpend hp hqser
      exact hqne (by rw [hqp])
    refine ⟨?_, ?_, ?_, ?_, ?_, ?_, ?_, ?_, hval2⟩
    · intro s hs; exact h.serial_lt s (hremss.mem hs)
    · exact hremss.nodup h.serial_nodup
    · exact hremid.nodup h.evalId_nodup
    · rw [heq2]; intro e he; exact h.evalId_le e (hremid.mem he)
    · intro d hd; exact h.deadline_le d (hremdl.mem hd)
    · intro s hs
      rw [outcomeCount_append]
      have hs0 : outcomeCount s log = 0 := h.pend_out s (hremss.mem hs)
      have hsne : s ≠ p.serial := fun hc => hnotmem (hc ▸ hs)
      rw [hs0, hcount1 s hsne]
    · intro s hns
      rw [outcomeCount_append, h.fut_out s hns]
      have hsne : s ≠ p.serial := by
        intro hc
        subst hc
        have := h.serial_lt _ hpser
        omega
      rw [hcount1 s hsne]
    · intro s
      rw [outcomeCount_append]
      by_cases hsp : s = p.serial
      · subst hsp
        rw [h.pend_out _ hpser]
        omega
      · rw [hcount1 s hsp]
        have := h.out_le s
        omega

end ChessEngine

namespace ChessEngine

/-- The pending serials only shrink under `handleStockfishMessage`. -/
theorem handle_serials_sublist (msg : String) (sid : Option Nat) (prod : Gen)
    (st : MainState) :
    List.Sublist (serialsOf (handleStockfishMessage msg sid prod st).1.pendingEvaluations)
      (serialsOf st.pendingEvaluations) := by
  unfold handleStockfishMessage
  have hser1 : serialsOf (infoPhase msg sid st).pendingEvaluations =
      serialsOf st.pendingEvaluations := serialsOf_eq_of_sigs (infoPhase_sigs msg sid st)
  rcases bestmovePhase_spec msg sid prod (infoPhase msg sid st) with
    ⟨hpend, _⟩ | ⟨p, _, hpend, _⟩
  · rw [hpend, hser1]
  · rw [hpend, ← hser1]
    exact serialsOf_removePending_sublist _ _

/-- Every event `handleStockfishMessage` emits settles a currently pending
serial. -/
theorem handle_events_serials (msg : String) (sid : Option Nat) (prod : Gen)
    (st : MainState) (ev : Event)
    (h : ev ∈ (handleStockfishMessage msg sid prod st).2) :
    isOutcome ev = true ∧ eventSerial ev ∈ serialsOf st.pendingEvaluations := by
  unfold handleStockfishMessage at h
  have hser1 : serialsOf (infoPhase msg sid st).pendingEvaluations =
      serialsOf st.pendingEvaluations := serialsOf_eq_of_sigs (infoPhase_sigs msg sid st)
  rcases bestmovePhase_spec msg sid prod (infoPhase msg sid st) with
    ⟨_, hev⟩ | ⟨p, hp, _, hev⟩
  · rw [hev] at h
    cases h
  · have hpser : eventSerial ev = p.serial → eventSerial ev ∈ serialsOf st.pendingEvaluations := by
      intro he
      rw [he, ← hser1]
      exact List.mem_map_of_mem _ hp
    rcases hev with ⟨r, hev⟩ | hev <;> rw [hev] at h <;>
      rcases List.mem_singleton.mp h with rfl <;>
      exact ⟨rfl, hpser rfl⟩

/-- A pending serial either stays pending across `handleStockfishMessage` or
receives an outcome event in the same step. -/
theorem handle_serial_tracked (msg : String) (sid : Option Nat) (prod : Gen)
    (st : MainState) (s : Nat)
    (hid : (evalIdsOf st.pendingEvaluations).Nodup)
    (hs : s ∈ serialsOf st.pendingEvaluations) :
    s ∈ serialsOf (handleStockfishMessage msg sid prod st).1.pendingEvaluations ∨
    0 < outcomeCount s (handleStockfishMessage msg sid prod st).2 := by
  unfold handleStockfishMessage
  have hsig1 := infoPhase_sigs msg sid st
  have hser1 : serialsOf (infoPhase msg sid st).pendingEvaluations =
      serialsOf st.pendingEvaluations := serialsOf_eq_of_sigs hsig1
  have heid1 : evalIdsOf (infoPhase msg sid st).pendingEvaluations =
      evalIdsOf st.pendingEvaluations := evalIdsOf_eq_of_sigs hsig1
  rcases bestmovePhase_spec msg sid prod (infoPhase msg sid st) with
    ⟨hpend, _⟩ | ⟨p, hp, hpend, hev⟩
  · left
    rw [hpend, hser1]
    exact hs
  · by_cases hsp : s = p.serial
    · right
      subst hsp
      rcases hev with ⟨r, hev⟩ | hev <;> rw [hev] <;>
        simp [outcomeCount, List.countP_cons, List.countP_nil, isOutcome, eventSerial]
    · left
      rw [hpend]
      rw [← hser1] at hs
      simp only [serialsOf, List.mem_map] at hs
      obtain ⟨q, hq, hqser⟩ := hs
      have hqp : q ≠ p := by
        intro hc
        rw [hc] at hqser
        exact hsp hqser.symm
      have hqe : q.evalId ≠ p.evalId := by
        intro hc
        apply hqp
        have hinj := List.inj_on_of_nodup_map
          (f := fun p : PendingEntry => p.evalId) (l := (infoPhase msg sid st).pendingEvaluations)
          (by
            have := heid1
            simp only [evalIdsOf] at this
            rw [this]
            simpa [evalIdsOf] using hid)
        exact hinj hq hp hc
      simp only [serialsOf, removePending, List.mem_map]
      refine ⟨q, ?_, hqser⟩
      rw [List.mem_filter]
      exact ⟨hq, by simpa using hqe⟩

end ChessEngine

theorem outcomeCount_submitted (s x : Nat) : outcomeCount s [Event.submitted x] = 0 := by
  simp [outcomeCount, List.countP_cons, List.countP_nil, isOutcome]

theorem count_serialsOf_le_one {l : List PendingEntry}
    (h : (ChessEngine.serialsOf l).Nodup) (s : Nat) :
    (ChessEngine.serialsOf l).count s ≤ 1 :=
  List.nodup_iff_count_le_one.mp h s

namespace ChessEngine

theorem serialsOf_append (l1 l2 : List PendingEntry) :
    serialsOf (l1 ++ l2) = serialsOf l1 ++ serialsOf l2 := List.map_append _ _ _

theorem serialsOf_filter_sublist (l : List PendingEntry) (f : PendingEntry → Bool) :
    List.Sublist (serialsOf (l.filter f)) (serialsOf l) := (List.filter_sublist l).map _

theorem evalIdsOf_filter_sublist (l : List PendingEntry) (f : PendingEntry → Bool) :
    List.Sublist (evalIdsOf (l.filter f)) (evalIdsOf l) := (List.filter_sublist l).map _

theorem deadlinesOf_filter_sublist (l : List PendingEntry) (f : PendingEntry → Bool) :
    List.Sublist (deadlinesOf (l.filter f)) (deadlinesOf l) := (List.filter_sublist l).map _

/-- Two complementary filters of a serial-nodup pending list have disjoint
serials. -/
theorem serials_filter_disjoint {l : List PendingEntry}
    (h : (serialsOf l).Nodup) (f : PendingEntry → Bool) (s : Nat)
    (hs : s ∈ serialsOf (l.filter f)) :
    s ∉ serialsOf (l.filter (fun p => !f p)) := by
  intro hs'
  simp only [serialsOf, List.mem_map] at hs hs'
  obtain ⟨q1, hq1, hq1s⟩ := hs
  obtain ⟨q2, hq2, hq2s⟩ := hs'
  have hq1l := List.mem_of_mem_filter hq1
  have hq2l := List.mem_of_mem_filter hq2
  have h12 : q1 = q2 := by
    have hinj := List.inj_on_of_nodup_map
      (f := fun p : PendingEntry => p.serial) (l := l) (by simpa [serialsOf] using h)
    exact hinj hq1l hq2l (by rw [hq1s, hq2s])
  have hf1 : f q1 = true := (List.mem_filter.mp hq1).2
  have hf2 : (!f q2) = true := (List.mem_filter.mp hq2).2
  rw [h12] at hf1
  rw [hf1] at hf2
  cases hf2

/-- `getEvaluation`'s synchronous step preserves main-thread
well-formedness relative to the incremented serial bound. -/
theorem getEvaluation_preserves_wfm (st : MainState) (log : List Event) (ns clk : Nat)
    (h : WFm st.pendingEvaluations st.searchIdToEvalId st.evaluationId log ns clk) :
    WFm (getEvaluationStep st ns clk).1.pendingEvaluations
      (getEvaluationStep st ns clk).1.searchIdToEvalId
      (getEvaluationStep st ns clk).1.evaluationId
      (log ++ (getEvaluationStep st ns clk).2) (ns + 1) clk := by
  unfold getEvaluationStep
  simp only
  constructor
  case serial_lt =>
    intro s hs
    rw [serialsOf_append] at hs
    rcases List.mem_append.mp hs with hs | hs
    · have := h.serial_lt s ((serialsOf_filter_sublist _ _).mem hs)
      omega
    · simp [serialsOf] at hs
      omega
  case serial_nodup =>
    rw [serialsOf_append, List.nodup_append]
    refine ⟨(serialsOf_filter_sublist _ _).nodup h.serial_nodup, by simp [serialsOf], ?_⟩
    intro s hs
    have := h.serial_lt s ((serialsOf_filter_sublist _ _).mem hs)
    simp [serialsOf]
    omega
  case evalId_nodup =>
    have : evalIdsOf (st.pendingEvaluations.filter
        (fun p => isMappedE st.searchIdToEvalId p.evalId) ++
        [⟨st.evaluationId + 1, ns, clk + 30, none⟩]) =
        evalIdsOf (st.pendingEvaluations.filter
          (fun p => isMappedE st.searchIdToEvalId p.evalId)) ++ [st.evaluationId + 1] := by
      simp [evalIdsOf]
    rw [this, List.nodup_append]
    refine ⟨(evalIdsOf_filter_sublist _ _).nodup h.evalId_nodup, List.nodup_singleton _, ?_⟩
    intro e he
    have := h.evalId_le e ((evalIdsOf_filter_sublist _ _).mem he)
    simp
    omega
  case evalId_le =>
    intro e he
    simp only [evalIdsOf, List.map_append, List.mem_append] at he
    rcases he with he | he
    · have := h.evalId_le e ((evalIdsOf_filter_sublist _ _).mem he)
      omega
    · simp at he
      omega
  case deadline_le =>
    intro d hd
    simp only [deadlinesOf, List.map_append, List.mem_append] at hd
    rcases hd with hd | hd
    · exact h.deadline_le d ((deadlinesOf_filter_sublist _ _).mem hd)
    · simp at hd
      omega
  case pend_out =>
    intro s hs
    rw [outcomeCount_append, outcomeCount_append, outcomeCount_rejections,
      outcomeCount_submitted]
    rw [serialsOf_append] at hs
    rcases List.mem_append.mp hs with hs | hs
    · rw [h.pend_out s ((serialsOf_filter_sublist _ _).mem hs)]
      have hdisj : s ∉ serialsOf (st.pendingEvaluations.filter
          (fun p => !isMappedE st.searchIdToEvalId p.evalId)) :=
        serials_filter_disjoint h.serial_nodup
          (fun p => isMappedE st.searchIdToEvalId p.evalId) s hs
      rw [List.count_eq_zero.mpr hdisj]
    · simp only [serialsOf, List.map_cons, List.map_nil, List.mem_singleton] at hs
      rw [hs, h.fut_out ns (le_refl ns)]
      have hnm : ns ∉ serialsOf (st.pendingEvaluations.filter
          (fun p => !isMappedE st.searchIdToEvalId p.evalId)) := by
        intro hc
        have := h.serial_lt ns ((serialsOf_filter_sublist _ _).mem hc)
        omega
      rw [List.count_eq_zero.mpr hnm]
  case fut_out =>
    intro s hns
    rw [outcomeCount_append, outcomeCount_append, outcomeCount_rejections,
      outcomeCount_submitted, h.fut_out s (by omega)]
    have : s ∉ serialsOf (st.pendingEvaluations.filter
        (fun p => !isMappedE st.searchIdToEvalId p.evalId)) := by
      intro hc
      have := h.serial_lt s ((serialsOf_filter_sublist _ _).mem hc)
      omega
    rw [List.count_eq_zero.mpr this]
  case out_le =>
    intro s
    rw [outcomeCount_append, outcomeCount_append, outcomeCount_rejections,
      outcomeCount_submitted]
    by_cases hmem : s ∈ serialsOf (st.pendingEvaluations.filter
        (fun p => !isMappedE st.searchIdToEvalId p.evalId))
    · have h0 : outcomeCount s log = 0 :=
        h.pend_out s ((serialsOf_filter_sublist _ _).mem hmem)
      have h1 : (serialsOf (st.pendingEvaluations.filter
          (fun p => !isMappedE st.searchIdToEvalId p.evalId))).count s ≤ 1 :=
        count_serialsOf_le_one ((serialsOf_filter_sublist _ _).nodup h.serial_nodup) s
      omega
    · rw [List.count_eq_zero.mpr hmem]
      have := h.out_le s
      omega
  case val_nodup => exact h.val_nodup

/-- A pending serial either survives `getEvaluation`'s reject-the-unmapped
sweep or is rejected in it. -/
theorem getEvaluation_serial_tracked (st : MainState) (ns clk s : Nat)
    (hs : s ∈ serialsOf st.pendingEvaluations) :
    s ∈ serialsOf (getEvaluationStep st ns clk).1.pendingEvaluations ∨
    0 < outcomeCount s (getEvaluationStep st ns clk).2 := by
  unfold getEvaluationStep
  simp only
  simp only [serialsOf, List.mem_map] at hs
  obtain ⟨q, hq, hqs⟩ := hs
  by_cases hqm : isMappedE st.searchIdToEvalId q.evalId
  · left
    rw [serialsOf_append]
    apply List.mem_append_left
    simp only [serialsOf, List.mem_map]
    exact ⟨q, List.mem_filter.mpr ⟨hq, hqm⟩, hqs⟩
  · right
    apply rejected_mem_outcomeCount (m := "Evaluation cancelled by new request")
    apply List.mem_append_left
    rw [← hqs]
    exact List.mem_map_of_mem _ (List.mem_filter.mpr ⟨hq, by simpa using hqm⟩)

end ChessEngine

namespace ChessEngine

/-- Filters by pointwise-incompatible predicates of a serial-nodup pending
list have disjoint serials. -/
theorem serials_filter_incompat {l : List PendingEntry}
    (h : (serialsOf l).Nodup) {f g : PendingEntry → Bool}
    (hfg : ∀ p ∈ l, f p = true → g p = false) (s : Nat)
    (hs : s ∈ serialsOf (l.filter f)) : s ∉ serialsOf (l.filter g) := by
  intro hs'
  simp only [serialsOf, List.mem_map] at hs hs'
  obtain ⟨q1, hq1, hq1s⟩ := hs
  obtain ⟨q2, hq2, hq2s⟩ := hs'
  have hq1l := List.mem_of_mem_filter hq1
  have hq2l := List.mem_of_mem_filter hq2
  have h12 : q1 = q2 := by
    have hinj := List.inj_on_of_nodup_map
      (f := fun p : PendingEntry => p.serial) (l := l) (by simpa [serialsOf] using h)
    exact hinj hq1l hq2l (by rw [hq1s, hq2s])
  have hf1 : f q1 = true := (List.mem_filter.mp hq1).2
  have hf2 : g q2 = true := (List.mem_filter.mp hq2).2
  rw [h12] at hf1
  rw [hfg q2 hq2l hf1] at hf2
  cases hf2

/-- Rejecting every pending evaluation and clearing both maps preserves
well-formedness for any new `evaluationId`. -/
theorem clearAll_wfm (st : MainState) (log : List Event) (ns clk : Nat)
    (m : String) (eid' clk' : Nat)
    (h : WFm st.pendingEvaluations st.searchIdToEvalId st.evaluationId log ns clk) :
    WFm [] [] eid'
      (log ++ st.pendingEvaluations.map (fun p => Event.rejected p.serial m))
      ns clk' := by
  constructor
  case serial_lt => intro s hs; cases hs
  case serial_nodup => exact List.nodup_nil
  case evalId_nodup => exact List.nodup_nil
  case evalId_le => intro e he; cases he
  case deadline_le => intro d hd; cases hd
  case pend_out => intro s hs; cases hs
  case fut_out =>
    intro s hns
    rw [outcomeCount_append, outcomeCount_rejections, h.fut_out s hns]
    have hnm : s ∉ serialsOf st.pendingEvaluations := by
      intro hc
      have := h.serial_lt s hc
      omega
    rw [List.count_eq_zero.mpr hnm]
  case out_le =>
    intro s
    rw [outcomeCount_append, outcomeCount_rejections]
    by_cases hmem : s ∈ serialsOf st.pendingEvaluations
    · have h0 := h.pend_out s hmem
      have h1 := count_serialsOf_le_one h.serial_nodup s
      omega
    · rw [List.count_eq_zero.mpr hmem]
      have := h.out_le s
      omega
  case val_nodup => exact List.nodup_nil

/-- Every serial pending before the clear-all receives an outcome event. -/
theorem clearAll_serial_tracked (pend : List PendingEntry) (m : String) (s : Nat)
    (hs : s ∈ serialsOf pend) :
    0 < outcomeCount s (pend.map (fun p => Event.rejected p.serial m)) := by
  simp only [serialsOf, List.mem_map] at hs
  obtain ⟨q, hq, hqs⟩ := hs
  apply rejected_mem_outcomeCount (m := m)
  rw [← hqs]
  exact List.mem_map_of_mem _ hq

/-- The timer batch preserves main-thread well-formedness at the advanced
clock. -/
theorem tick_preserves_wfm (st : MainState) (log : List Event) (ns clk t : Nat)
    (hclk : clk ≤ t)
    (h : WFm st.pendingEvaluations st.searchIdToEvalId st.evaluationId log ns clk) :
    WFm (tickStep st t).1.pendingEvaluations (tickStep st t).1.searchIdToEvalId
      (tickStep st t).1.evaluationId (log ++ (tickStep st t).2) ns t := by
  unfold tickStep
  simp only
  have hdisj : ∀ s ∈ serialsOf (st.pendingEvaluations.filter
      (fun p => p.evalId ∉ (st.pendingEvaluations.filter
        (fun q => q.deadline ≤ t)).map (fun q => q.evalId))),
      s ∉ serialsOf (st.pendingEvaluations.filter (fun q => q.deadline ≤ t)) := by
    intro s hs
    exact serials_filter_incompat h.serial_nodup
      (f := fun p => decide (p.evalId ∉ (st.pendingEvaluations.filter
        (fun q => q.deadline ≤ t)).map (fun q => q.evalId)))
      (g := fun q => decide (q.deadline ≤ t))
      (by
        intro p hp hf
        simp only [decide_eq_true_eq] at hf
        by_contra hg
        simp only [Bool.not_eq_false, decide_eq_true_eq] at hg
        exact hf (List.mem_map_of_mem _ (List.mem_filter.mpr ⟨hp, by simpa using hg⟩)))
      s hs
  constructor
  case serial_lt =>
    intro s hs
    exact h.serial_lt s ((serialsOf_filter_sublist _ _).mem hs)
  case serial_nodup => exact (serialsOf_filter_sublist _ _).nodup h.serial_nodup
  case evalId_nodup => exact (evalIdsOf_filter_sublist _ _).nodup h.evalId_nodup
  case evalId_le =>
    intro e he
    exact h.evalId_le e ((evalIdsOf_filter_sublist _ _).mem he)
  case deadline_le =>
    intro d hd
    have := h.deadline_le d ((deadlinesOf_filter_sublist _ _).mem hd)
    omega
  case pend_out =>
    intro s hs
    rw [outcomeCount_append, outcomeCount_rejections,
      h.pend_out s ((serialsOf_filter_sublist _ _).mem hs),
      List.count_eq_zero.mpr (hdisj s hs)]
  case fut_out =>
    intro s hns
    rw [outcomeCount_append, outcomeCount_rejections, h.fut_out s hns]
    have hnm : s ∉ serialsOf (st.pendingEvaluations.filter (fun q => q.deadline ≤ t)) := by
      intro hc
      have := h.serial_lt s ((serialsOf_filter_sublist _ _).mem hc)
      omega
    rw [List.count_eq_zero.mpr hnm]
  case out_le =>
    intro s
    rw [outcomeCount_append, outcomeCount_rejections]
    by_cases hmem : s ∈ serialsOf (st.pendingEvaluations.filter (fun q => q.deadline ≤ t))
    · have h0 := h.pend_out s ((serialsOf_filter_sublist _ _).mem hmem)
      have h1 : (serialsOf (st.pendingEvaluations.filter
          (fun q => q.deadline ≤ t))).count s ≤ 1 :=
        count_serialsOf_le_one ((serialsOf_filter_sublist _ _).nodup h.serial_nodup) s
      omega
    · rw [List.count_eq_zero.mpr hmem]
      have := h.out_le s
      omega
  case val_nodup =>
    exact (mapValues_sublist (foldErase_sublist _ _)).nodup h.val_nodup

/-- A serial pending before the timer batch either survives it or is timed
out in it. -/
theorem tick_serial_tracked (st : MainState) (t s : Nat)
    (hid : (evalIdsOf st.pendingEvaluations).Nodup)
    (hs : s ∈ serialsOf st.pendingEvaluations) :
    s ∈ serialsOf (tickStep st t).1.pendingEvaluations ∨
    0 < outcomeCount s (tickStep st t).2 := by
  unfold tickStep
  simp only
  simp only [serialsOf, List.mem_map] at hs
  obtain ⟨q, hq, hqs⟩ := hs
  by_cases hqd : q.deadline ≤ t
  · right
    apply rejected_mem_outcomeCount (m := "Evaluation timeout")
    rw [← hqs]
    exact List.mem_map_of_mem _ (List.mem_filter.mpr ⟨hq, by simpa using hqd⟩)
  · left
    simp only [serialsOf, List.mem_map]
    refine ⟨q, List.mem_filter.mpr ⟨hq, ?_⟩, hqs⟩
    have hnotin : q.evalId ∉ (st.pendingEvaluations.filter
        (fun r => r.deadline ≤ t)).map (fun r => r.evalId) := by
      intro hc
      simp only [List.mem_map] at hc
      obtain ⟨r, hr, hre⟩ := hc
      have hrq : r = q := by
        have hinj := List.inj_on_of_nodup_map
          (f := fun p : PendingEntry => p.evalId) (l := st.pendingEvaluations)
          (by simpa [evalIdsOf] using hid)
        exact hinj (List.mem_of_mem_filter hr) hq hre
      have := (List.mem_filter.mp hr).2
      rw [hrq] at this
      simp only [decide_eq_true_eq] at this
      exact hqd this
    simpa using hnotin

end ChessEngine

namespace Sys

/-- System-level well-formedness: the main thread is well-formed, submitted
serials are bounded and tracked (settled or still pending), and there is
nothing pending without a worker. -/
structure WF (st : Sys) : Prop where
  wfm : WFm st.main.pendingEvaluations st.main.searchIdToEvalId
    st.main.evaluationId st.log st.nextSerial st.clock
  sub_lt : ∀ s ∈ st.submittedSerials, s < st.nextSerial
  sub_out : ∀ s ∈ st.submittedSerials,
    0 < outcomeCount s st.log ∨ s ∈ pendingSerials st
  now_emp : st.main.hasWorker = false → st.main.pendingEvaluations = []

theorem pendingSerials_def (st : Sys) :
    pendingSerials st = ChessEngine.serialsOf st.main.pendingEvaluations := rfl

/-- Framing: a step that leaves the request-correlation state untouched
preserves well-formedness. -/
theorem WF.frame {st st' : Sys} (h : WF st)
    (hm : st'.main.pendingEvaluations = st.main.pendingEvaluations)
    (hmap : st'.main.searchIdToEvalId = st.main.searchIdToEvalId)
    (heid : st'.main.evaluationId = st.main.evaluationId)
    (hlog : st'.log = st.log)
    (hns : st'.nextSerial = st.nextSerial)
    (hclk : st'.clock = st.clock)
    (hsub : st'.submittedSerials = st.submittedSerials)
    (hwk : st'.main.hasWorker = st.main.hasWorker ∨ st'.main.hasWorker = true) :
    WF st' := by
  constructor
  · rw [hm, hmap, heid, hlog, hns, hclk]
    exact h.wfm
  · rw [hsub, hns]
    exact h.sub_lt
  · rw [hsub, hlog, pendingSerials_def, hm, ← pendingSerials_def]
    exact h.sub_out
  · intro hw
    rw [hm]
    rcases hwk with hwk | hwk
    · exact h.now_emp (hwk ▸ hw)
    · rw [hw] at hwk
      cases hwk

end Sys

namespace Sys

theorem wf_init (st : Sys) (h : WF st) : WF (step st Act.initAct) := by
  simp only [step, stepInit]
  by_cases hw : st.main.hasWorker
  · simp only [hw, if_pos]
    exact h.frame rfl rfl rfl (by simp) rfl rfl rfl (Or.inl rfl)
  · simp only [hw, Bool.false_eq_true, if_neg, not_false_iff]
    exact h.frame rfl rfl rfl (by simp) rfl rfl rfl (Or.inr rfl)

theorem wf_workerReady (st : Sys) (h : WF st) : WF (step st Act.workerReadyStep) := by
  simp only [step, stepWorkerReady]
  by_cases hw : st.workerAlive && !st.workerReady
  · simp only [hw, if_pos]
    exact h.frame rfl rfl rfl (by simp) rfl rfl rfl (Or.inl rfl)
  · simp only [hw, Bool.false_eq_true, if_neg, not_false_iff]
    exact h.frame rfl rfl rfl (by simp) rfl rfl rfl (Or.inl rfl)

theorem wf_workerProcess (st : Sys) (h : WF st) : WF (step st Act.workerProcess) := by
  simp only [step, stepWorkerProcess]
  by_cases hw : st.workerAlive
  · simp only [hw, if_pos]
    cases hq : st.toWorker with
    | nil => exact h.frame rfl rfl rfl (by simp) rfl rfl rfl (Or.inl rfl)
    | cons msg rest =>
      cases msg with
      | initMsg => exact h.frame rfl rfl rfl (by simp) rfl rfl rfl (Or.inl rfl)
      | evaluateMsg d serial =>
        by_cases hr : st.workerReady
        · simp only [hr, if_pos]
          exact h.frame rfl rfl rfl (by simp) rfl rfl rfl (Or.inl rfl)
        · simp only [hr, Bool.false_eq_true, if_neg, not_false_iff]
          exact h.frame rfl rfl rfl (by simp) rfl rfl rfl (Or.inl rfl)
      | stopMsg =>
        by_cases hr : st.workerReady
        · simp only [hr, if_pos]
          exact h.frame rfl rfl rfl (by simp) rfl rfl rfl (Or.inl rfl)
        · simp only [hr, Bool.false_eq_true, if_neg, not_false_iff]
          exact h.frame rfl rfl rfl (by simp) rfl rfl rfl (Or.inl rfl)
  · simp only [hw, Bool.false_eq_true, if_neg, not_false_iff]
    exact h.frame rfl rfl rfl (by simp) rfl rfl rfl (Or.inl rfl)

theorem wf_emitInfo (st : Sys) (s : String) (h : WF st) : WF (step st (Act.emitInfo s)) := by
  simp only [step, stepEmitInfo]
  by_cases hw : st.workerAlive
  · simp only [hw, if_pos]
    cases hg : st.engineActive with
    | none => exact h.frame rfl rfl rfl (by simp) rfl rfl rfl (Or.inl rfl)
    | some g => exact h.frame rfl rfl rfl (by simp) rfl rfl rfl (Or.inl rfl)
  · simp only [hw, Bool.false_eq_true, if_neg, not_false_iff]
    exact h.frame rfl rfl rfl (by simp) rfl rfl rfl (Or.inl rfl)

theorem wf_emitBestmoveActive (st : Sys) (s : String) (h : WF st) :
    WF (step st (Act.emitBestmoveActive s)) := by
  simp only [step, stepEmitBestmoveActive]
  by_cases hw : st.workerAlive
  · simp only [hw, if_pos]
    cases hg : st.engineActive with
    | none => exact h.frame rfl rfl rfl (by simp) rfl rfl rfl (Or.inl rfl)
    | some g => exact h.frame rfl rfl rfl (by simp) rfl rfl rfl (Or.inl rfl)
  · simp only [hw, Bool.false_eq_true, if_neg, not_false_iff]
    exact h.frame rfl rfl rfl (by simp) rfl rfl rfl (Or.inl rfl)

theorem wf_emitBestmoveStopped (st : Sys) (g : Gen) (s : String) (h : WF st) :
    WF (step st (Act.emitBestmoveStopped g s)) := by
  simp only [step, stepEmitBestmoveStopped]
  by_cases hw : st.workerAlive && g ∈ st.engineStopped
  · simp only [hw, if_pos]
    exact h.frame rfl rfl rfl (by simp) rfl rfl rfl (Or.inl rfl)
  · simp only [hw, Bool.false_eq_true, if_neg, not_false_iff]
    exact h.frame rfl rfl rfl (by simp) rfl rfl rfl (Or.inl rfl)

end Sys

namespace ChessEngine

theorem handle_hasWorker (msg : String) (sid : Option Nat) (prod : Gen)
    (st : MainState) :
    (handleStockfishMessage msg sid prod st).1.hasWorker = st.hasWorker := by
  unfold handleStockfishMessage
  rw [bestmovePhase_hasWorker, infoPhase_hasWorker]

theorem handle_empty_pending (msg : String) (sid : Option Nat) (prod : Gen)
    (st : MainState) (hp : st.pendingEvaluations = []) :
    (handleStockfishMessage msg sid prod st).1.pendingEvaluations = [] := by
  have hsub := handle_serials_sublist msg sid prod st
  rw [hp] at hsub
  have : serialsOf (handleStockfishMessage msg sid prod st).1.pendingEvaluations = [] := by
    simpa [serialsOf] using List.sublist_nil.mp (by simpa [serialsOf] using hsub)
  simpa [serialsOf] using this

end ChessEngine

namespace Sys

theorem wf_deliverMain (st : Sys) (h : WF st) : WF (step st Act.deliverMain) := by
  simp only [step, stepDeliverMain]
  cases hq : st.fromWorker with
  | nil => exact h.frame rfl rfl rfl (by simp) rfl rfl rfl (Or.inl rfl)
  | cons msg rest =>
    cases msg with
    | ready e => exact h.frame rfl rfl rfl (by simp) rfl rfl rfl (Or.inl rfl)
    | errorMsg e => exact h.frame rfl rfl rfl (by simp) rfl rfl rfl (Or.inl rfl)
    | message data stamp g ep =>
      show WF { st with
        main := (ChessEngine.handleStockfishMessage data (some stamp) g st.main).1
        fromWorker := rest
        observedGens := st.observedGens ++ [g]
        log := st.log ++ (ChessEngine.handleStockfishMessage data (some stamp) g st.main).2 }
      constructor
      · exact ChessEngine.handle_preserves_wfm data (some stamp) g st.main st.log
          st.nextSerial st.clock h.wfm
      · exact h.sub_lt
      · intro s hs
        rcases h.sub_out s hs with hc | hp
        · left
          have : outcomeCount s (st.log ++
              (ChessEngine.handleStockfishMessage data (some stamp) g st.main).2) =
              outcomeCount s st.log + outcomeCount s
                (ChessEngine.handleStockfishMessage data (some stamp) g st.main).2 :=
            outcomeCount_append _ _ _
          rw [this]
          omega
        · rcases ChessEngine.handle_serial_tracked data (some stamp) g st.main s
            h.wfm.evalId_nodup hp with hin | hev
          · right
            exact hin
          · left
            rw [outcomeCount_append]
            omega
      · intro hw
        rw [ChessEngine.handle_hasWorker] at hw
        exact ChessEngine.handle_empty_pending data (some stamp) g st.main (h.now_emp hw)

theorem wf_submit (st : Sys) (d : Nat) (h : WF st) : WF (step st (Act.submit d)) := by
  simp only [step, stepSubmit]
  by_cases hg : st.main.hasWorker && st.main.isReady
  · simp only [hg, if_pos]
    constructor
    · exact ChessEngine.getEvaluation_preserves_wfm st.main st.log st.nextSerial
        st.clock h.wfm
    · show ∀ s ∈ st.submittedSerials ++ [st.nextSerial], s < st.nextSerial + 1
      intro s hs
      rcases List.mem_append.mp hs with hs | hs
      · have := h.sub_lt s hs
        omega
      · simp only [List.mem_singleton] at hs
        omega
    · show ∀ s ∈ st.submittedSerials ++ [st.nextSerial],
        0 < outcomeCount s (st.log ++
          (ChessEngine.getEvaluationStep st.main st.nextSerial st.clock).2) ∨
        s ∈ ChessEngine.serialsOf
          (ChessEngine.getEvaluationStep st.main st.nextSerial st.clock).1.pendingEvaluations
      intro s hs
      rcases List.mem_append.mp hs with hs | hs
      · rcases h.sub_out s hs with hc | hp
        · left
          rw [outcomeCount_append]
          omega
        · rcases ChessEngine.getEvaluation_serial_tracked st.main st.nextSerial
            st.clock s hp with hin | hev
          · right
            exact hin
          · left
            rw [outcomeCount_append]
            omega
      · simp only [List.mem_singleton] at hs
        subst hs
        right
        unfold ChessEngine.getEvaluationStep
        simp [ChessEngine.serialsOf]
    · intro hw
      have hw2 : st.main.hasWorker = false := by
        have hpres : (ChessEngine.getEvaluationStep st.main st.nextSerial
            st.clock).1.hasWorker = st.main.hasWorker := rfl
        rw [← hpres]
        exact hw
      have hand := (Bool.and_eq_true _ _).mp hg
      rw [hw2] at hand
      cases hand.1
  · simp only [hg, Bool.false_eq_true, if_neg, not_false_iff]
    exact h.frame rfl rfl rfl (by simp) rfl rfl rfl (Or.inl rfl)

end Sys

namespace Sys

theorem wf_stop (st : Sys) (h : WF st) : WF (step st Act.stopEval) := by
  simp only [step, stepStop, ChessEngine.stopEvaluationStep]
  by_cases hg : st.main.hasWorker && st.main.isReady
  · simp only [hg, if_pos]
    constructor
    · show WFm [] [] st.main.evaluationId
        (st.log ++ st.main.pendingEvaluations.map
          (fun p => Event.rejected p.serial "Evaluation stopped"))
        st.nextSerial st.clock
      exact ChessEngine.clearAll_wfm st.main st.log st.nextSerial st.clock
        "Evaluation stopped" st.main.evaluationId st.clock h.wfm
    · exact h.sub_lt
    · intro s hs
      left
      show 0 < outcomeCount s (st.log ++ st.main.pendingEvaluations.map
        (fun p => Event.rejected p.serial "Evaluation stopped"))
      rw [outcomeCount_append]
      rcases h.sub_out s hs with hc | hp
      · omega
      · have := ChessEngine.clearAll_serial_tracked st.main.pendingEvaluations
          "Evaluation stopped" s hp
        omega
    · intro _
      rfl
  · simp only [hg, Bool.false_eq_true, if_neg, not_false_iff]
    exact h.frame rfl rfl rfl (by simp) rfl rfl rfl (Or.inl rfl)

theorem wf_destroy (st : Sys) (h : WF st) : WF (step st Act.destroyAct) := by
  simp only [step, stepDestroy, ChessEngine.destroyStep, ChessEngine.stopEvaluationStep]
  by_cases hw : st.main.hasWorker
  · by_cases hr : st.main.isReady
    · simp only [hw, hr, Bool.and_self, Bool.true_and, if_pos]
      constructor
      · show WFm [] [] 0
          (st.log ++ (st.main.pendingEvaluations.map
            (fun p => Event.rejected p.serial "Evaluation stopped") ++
            List.map (fun p : PendingEntry => Event.rejected p.serial "Worker terminated")
              ([] : List PendingEntry)))
          st.nextSerial st.clock
        have hwfm := ChessEngine.clearAll_wfm st.main st.log st.nextSerial st.clock
          "Evaluation stopped" 0 st.clock h.wfm
        simpa using hwfm
      · exact h.sub_lt
      · intro s hs
        left
        show 0 < outcomeCount s
          (st.log ++ (st.main.pendingEvaluations.map
            (fun p => Event.rejected p.serial "Evaluation stopped") ++
            List.map (fun p : PendingEntry => Event.rejected p.serial "Worker terminated")
              ([] : List PendingEntry)))
        rw [List.map_nil, List.append_nil, outcomeCount_append]
        rcases h.sub_out s hs with hc | hp
        · omega
        · have := ChessEngine.clearAll_serial_tracked st.main.pendingEvaluations
            "Evaluation stopped" s hp
          omega
      · intro _
        rfl
    · simp only [hw, hr, Bool.true_and, Bool.false_eq_true, if_neg, not_false_iff, if_pos]
      constructor
      · show WFm [] [] 0
          (st.log ++ ([] ++ st.main.pendingEvaluations.map
            (fun p => Event.rejected p.serial "Worker terminated")))
          st.nextSerial st.clock
        have hwfm := ChessEngine.clearAll_wfm st.main st.log st.nextSerial st.clock
          "Worker terminated" 0 st.clock h.wfm
        simpa using hwfm
      · exact h.sub_lt
      · intro s hs
        left
        show 0 < outcomeCount s
          (st.log ++ ([] ++ st.main.pendingEvaluations.map
            (fun p => Event.rejected p.serial "Worker terminated")))
        rw [List.nil_append, outcomeCount_append]
        rcases h.sub_out s hs with hc | hp
        · omega
        · have := ChessEngine.clearAll_serial_tracked st.main.pendingEvaluations
            "Worker terminated" s hp
          omega
      · intro _
        rfl
  · simp only [hw, Bool.false_eq_true, if_neg, not_false_iff]
    exact h.frame rfl rfl rfl (by simp) rfl rfl rfl (Or.inl rfl)

theorem wf_tick (st : Sys) (t : Nat) (h : WF st) : WF (step st (Act.tick t)) := by
  simp only [step, stepTick]
  constructor
  · exact ChessEngine.tick_preserves_wfm st.main st.log st.nextSerial st.clock
      (max st.clock t) (le_max_left _ _) h.wfm
  · exact h.sub_lt
  · intro s hs
    rcases h.sub_out s hs with hc | hp
    · left
      show 0 < outcomeCount s
        (st.log ++ (ChessEngine.tickStep st.main (max st.clock t)).2)
      rw [outcomeCount_append]
      omega
    · rcases ChessEngine.tick_serial_tracked st.main (max st.clock t) s
        h.wfm.evalId_nodup hp with hin | hev
      · right
        exact hin
      · left
        show 0 < outcomeCount s
          (st.log ++ (ChessEngine.tickStep st.main (max st.clock t)).2)
        rw [outcomeCount_append]
        omega
  · intro hw
    show (ChessEngine.tickStep st.main (max st.clock t)).1.pendingEvaluations = []
    have hp : st.main.pendingEvaluations = [] := h.now_emp hw
    unfold ChessEngine.tickStep
    simp [hp]

/-- One scheduler step preserves system well-formedness. -/
theorem wf_step (st : Sys) (a : Act) (h : WF st) : WF (step st a) := by
  cases a with
  | initAct => exact wf_init st h
  | workerReadyStep => exact wf_workerReady st h
  | workerProcess => exact wf_workerProcess st h
  | deliverMain => exact wf_deliverMain st h
  | submit d => exact wf_submit st d h
  | stopEval => exact wf_stop st h
  | destroyAct => exact wf_destroy st h
  | tick t => exact wf_tick st t h
  | emitInfo s => exact wf_emitInfo st s h
  | emitBestmoveActive s => exact wf_emitBestmoveActive st s h
  | emitBestmoveStopped g s => exact wf_emitBestmoveStopped st g s h

/-- The pristine system is well-formed. -/
theorem wf_init0 : WF init0 := by
  constructor
  · constructor <;> simp [init0, ChessEngine.serialsOf, ChessEngine.evalIdsOf,
      ChessEngine.deadlinesOf, ChessEngine.mapValues, outcomeCount]
  · intro s hs
    cases hs
  · intro s hs
    cases hs
  · intro _
    rfl

/-- Every reachable system state is well-formed. -/
theorem wf_runFrom (st : Sys) (as : List Act) (h : WF st) : WF (runFrom st as) := by
  induction as generalizing st with
  | nil => exact h
  | cons a rest ih => exact ih (step st a) (wf_step st a h)

theorem wf_run (as : List Act) : WF (run as) := wf_runFrom init0 as wf_init0

end Sys

namespace Sys

/-- Every outcome event a step emits settles a serial that was pending before
the step; the only other event is the `submitted` marker of a fresh serial. -/
theorem stepEvents_serials (st : Sys) (a : Act) (ev : Event)
    (h : ev ∈ stepEvents st a) :
    (isOutcome ev = true ∧ eventSerial ev ∈ pendingSerials st) ∨
    ev = Event.submitted st.nextSerial := by
  cases a with
  | initAct =>
    simp only [stepEvents, stepInit] at h
    split at h <;> cases h
  | workerReadyStep =>
    simp only [stepEvents, stepWorkerReady] at h
    split at h <;> cases h
  | workerProcess =>
    simp only [stepEvents, stepWorkerProcess] at h
    split at h
    · split at h
      · cases h
      · cases h
      · split at h <;> cases h
      · split at h <;> cases h
    · cases h
  | deliverMain =>
    simp only [stepEvents, stepDeliverMain] at h
    cases hq : st.fromWorker with
    | nil => rw [hq] at h; cases h
    | cons msg rest =>
      rw [hq] at h
      cases msg with
      | ready e => cases h
      | errorMsg e => cases h
      | message data stamp g ep =>
        left
        exact ChessEngine.handle_events_serials data (some stamp) g st.main ev h
  | submit d =>
    simp only [stepEvents, stepSubmit] at h
    split at h
    · simp only [ChessEngine.getEvaluationStep] at h
      rcases List.mem_append.mp h with hm | hm
      · left
        simp only [List.mem_map] at hm
        obtain ⟨p, hp, hev⟩ := hm
        subst hev
        refine ⟨rfl, ?_⟩
        rw [pendingSerials_def]
        exact List.mem_map_of_mem _ (List.mem_of_mem_filter hp)
      · right
        simpa using hm
    · cases h
  | stopEval =>
    simp only [stepEvents, stepStop, ChessEngine.stopEvaluationStep] at h
    split at h
    · simp only [List.mem_map] at h
      obtain ⟨p, hp, hev⟩ := h
      subst hev
      exact Or.inl ⟨rfl, List.mem_map_of_mem _ hp⟩
    · cases h
  | destroyAct =>
    simp only [stepEvents, stepDestroy, ChessEngine.destroyStep,
      ChessEngine.stopEvaluationStep] at h
    split at h
    · split at h
      · simp only [List.map_nil, List.append_nil, List.mem_map] at h
        obtain ⟨p, hp, hev⟩ := h
        subst hev
        exact Or.inl ⟨rfl, List.mem_map_of_mem _ hp⟩
      · simp only [List.nil_append, List.mem_map] at h
        obtain ⟨p, hp, hev⟩ := h
        subst hev
        exact Or.inl ⟨rfl, List.mem_map_of_mem _ hp⟩
    · cases h
  | tick t =>
    simp only [stepEvents, stepTick, ChessEngine.tickStep] at h
    simp only [List.mem_map] at h
    obtain ⟨p, hp, hev⟩ := h
    subst hev
    exact Or.inl ⟨rfl, List.mem_map_of_mem _ (List.mem_of_mem_filter hp)⟩
  | emitInfo s =>
    simp only [stepEvents, stepEmitInfo] at h
    split at h
    · split at h <;> cases h
    · cases h
  | emitBestmoveActive s =>
    simp only [stepEvents, stepEmitBestmoveActive] at h
    split at h
    · split at h <;> cases h
    · cases h
  | emitBestmoveStopped g s =>
    simp only [stepEvents, stepEmitBestmoveStopped] at h
    split at h <;> cases h

/-- The serials pending after a step were pending before it, except for a
freshly submitted one. -/
theorem step_pendingSerials_sub (st : Sys) (a : Act) (s : Nat)
    (h : s ∈ pendingSerials (step st a)) :
    s ∈ pendingSerials st ∨ s = st.nextSerial := by
  cases a with
  | deliverMain =>
    simp only [pendingSerials_def, step, stepDeliverMain] at h ⊢
    cases hq : st.fromWorker with
    | nil => rw [hq] at h; exact Or.inl h
    | cons msg rest =>
      rw [hq] at h
      cases msg with
      | ready e => exact Or.inl h
      | errorMsg e => exact Or.inl h
      | message data stamp g ep =>
        exact Or.inl ((ChessEngine.handle_serials_sublist data (some stamp) g st.main).mem h)
  | submit d =>
    simp only [pendingSerials_def, step, stepSubmit] at h ⊢
    split at h
    · simp only [ChessEngine.getEvaluationStep, ChessEngine.serialsOf,
        List.map_append, List.mem_append] at h
      rcases h with h | h
      · obtain ⟨p, hp, hps⟩ := List.mem_map.mp h
        exact Or.inl (List.mem_map.mpr ⟨p, List.mem_of_mem_filter hp, hps⟩)
      · right
        simpa using h
    · exact Or.inl h
  | stopEval =>
    simp only [pendingSerials_def, step, stepStop, ChessEngine.stopEvaluationStep] at h ⊢
    split at h
    · cases h
    · exact Or.inl h
  | destroyAct =>
    simp only [pendingSerials_def, step, stepDestroy, ChessEngine.destroyStep,
      ChessEngine.stopEvaluationStep] at h ⊢
    split at h
    · cases h
    · exact Or.inl h
  | tick t =>
    simp only [pendingSerials_def, step, stepTick, ChessEngine.tickStep] at h ⊢
    exact Or.inl ((ChessEngine.serialsOf_filter_sublist _ _).mem h)
  | initAct =>
    simp only [pendingSerials_def, step, stepInit] at h ⊢
    split at h <;> exact Or.inl h
  | workerReadyStep =>
    simp only [pendingSerials_def, step, stepWorkerReady] at h ⊢
    split at h <;> exact Or.inl h
  | workerProcess =>
    simp only [pendingSerials_def, step, stepWorkerProcess] at h ⊢
    split at h
    · split at h <;> first
        | exact Or.inl h
        | (split at h <;> exact Or.inl h)
    · exact Or.inl h
  | emitInfo s' =>
    simp only [pendingSerials_def, step, stepEmitInfo] at h ⊢
    split at h
    · split at h <;> exact Or.inl h
    · exact Or.inl h
  | emitBestmoveActive s' =>
    simp only [pendingSerials_def, step, stepEmitBestmoveActive] at h ⊢
    split at h
    · split at h <;> exact Or.inl h
    · exact Or.inl h
  | emitBestmoveStopped g s' =>
    simp only [pendingSerials_def, step, stepEmitBestmoveStopped] at h ⊢
    split at h <;> exact Or.inl h

end Sys

namespace Sys

/-- A settled (no longer pending) serial below the allocation bound is never
mentioned in any later event: its promise can never fire again. -/
theorem runFrom_no_mentions (bs : List Act) (st : Sys) (s : Nat)
    (h1 : s ∉ pendingSerials st) (h2 : s < st.nextSerial) :
    ((runFrom st bs).log.filter (mentions s) = st.log.filter (mentions s)) ∧
    s ∉ pendingSerials (runFrom st bs) ∧ s < (runFrom st bs).nextSerial := by
  induction bs generalizing st with
  | nil => exact ⟨rfl, h1, h2⟩
  | cons a rest ih =>
    have hstep1 : s ∉ pendingSerials (step st a) := by
      intro hc
      rcases step_pendingSerials_sub st a s hc with hc | hc
      · exact h1 hc
      · omega
    have hstep2 : s < (step st a).nextSerial :=
      lt_of_lt_of_le h2 (step_nextSerial st a)
    have hfil : (step st a).log.filter (mentions s) = st.log.filter (mentions s) := by
      rw [step_log, List.filter_append]
      have hnone : (stepEvents st a).filter (mentions s) = [] := by
        rw [List.filter_eq_nil_iff]
        intro ev hev
        rcases stepEvents_serials st a ev hev with ⟨_, hm⟩ | hm
        · intro hc
          simp only [mentions, beq_iff_eq] at hc
          exact h1 (hc ▸ hm)
        · intro hc
          simp only [hm, mentions, eventSerial, beq_iff_eq] at hc
          omega
      rw [hnone, List.append_nil]
    have ihres := ih (step st a) hstep1 hstep2
    exact ⟨by rw [show runFrom st (a :: rest) = runFrom (step st a) rest from rfl,
      ihres.1, hfil], ihres.2.1, ihres.2.2⟩

/-- Once a serial has left the pending map (with its serial below the
allocation bound), no later resolution event for it can ever occur. -/
theorem runFrom_no_new_resolved (bs : List Act) (st : Sys) (s : Nat)
    (h1 : s ∉ pendingSerials st) (h2 : s < st.nextSerial)
    (r : EvalResult) (g : Gen) (hnot : Event.resolved s r g ∉ st.log) :
    Event.resolved s r g ∉ (runFrom st bs).log := by
  intro hc
  apply hnot
  have hm : Event.resolved s r g ∈ (runFrom st bs).log.filter (mentions s) :=
    List.mem_filter.mpr ⟨hc, by simp [mentions, eventSerial]⟩
  rw [(runFrom_no_mentions bs st s h1 h2).1] at hm
  exact (List.mem_filter.mp hm).1

end Sys

/-- Is this action an `evaluate()` submission? -/
def isSubmitAct : Act → Bool
  | Act.submit _ => true
  | _ => false

namespace Sys

/-- With nothing pending and no mapping, any non-submission step emits no
event and keeps both maps empty: stray engine output is ignored. -/
theorem step_inert (st : Sys) (a : Act)
    (hp : st.main.pendingEvaluations = []) (hm : st.main.searchIdToEvalId = [])
    (ha : isSubmitAct a = false) :
    stepEvents st a = [] ∧
    (step st a).main.pendingEvaluations = [] ∧
    (step st a).main.searchIdToEvalId = [] := by
  cases a with
  | submit d => cases ha
  | deliverMain =>
    simp only [stepEvents, step, stepDeliverMain]
    cases hq : st.fromWorker with
    | nil => exact ⟨by simp, hp, hm⟩
    | cons msg rest =>
      cases msg with
      | ready e => exact ⟨by simp, hp, hm⟩
      | errorMsg e => exact ⟨by simp, hp, hm⟩
      | message data stamp g ep =>
        have hsp := ChessEngine.handle_on_empty data (some stamp) g st.main hp hm
        refine ⟨?_, ?_, ?_⟩
        · show (ChessEngine.handleStockfishMessage data (some stamp) g st.main).2 = []
          rw [hsp]
        · show (ChessEngine.handleStockfishMessage data (some stamp) g
              st.main).1.pendingEvaluations = []
          rw [hsp]
          exact hp
        · show (ChessEngine.handleStockfishMessage data (some stamp) g
              st.main).1.searchIdToEvalId = []
          rw [hsp]
          exact hm
  | stopEval =>
    simp only [stepEvents, step, stepStop, ChessEngine.stopEvaluationStep]
    by_cases hg : st.main.hasWorker && st.main.isReady
    · simp only [hg, if_pos]
      refine ⟨?_, ?_, ?_⟩ <;> simp [hp]
    · simp only [hg, Bool.false_eq_true, if_neg, not_false_iff]
      exact ⟨by simp, hp, hm⟩
  | destroyAct =>
    simp only [stepEvents, step, stepDestroy, ChessEngine.destroyStep,
      ChessEngine.stopEvaluationStep]
    by_cases hw : st.main.hasWorker
    · by_cases hr : st.main.isReady
      · simp only [hw, hr, Bool.and_self, Bool.true_and, if_pos]
        refine ⟨?_, ?_, ?_⟩ <;> simp [hp]
      · simp only [hw, hr, Bool.true_and, Bool.false_eq_true, if_neg, not_false_iff,
          if_pos]
        refine ⟨?_, ?_, ?_⟩ <;> simp [hp]
    · simp only [hw, Bool.false_eq_true, if_neg, not_false_iff]
      exact ⟨by simp, hp, hm⟩
  | tick t =>
    simp only [stepEvents, step, stepTick, ChessEngine.tickStep]
    rw [hp, hm]
    exact ⟨by simp, rfl, rfl⟩
  | initAct =>
    simp only [stepEvents, step, stepInit]
    by_cases hw : st.main.hasWorker
    · simp only [hw, if_pos]
      exact ⟨by simp, hp, hm⟩
    · simp only [hw, Bool.false_eq_true, if_neg, not_false_iff]
      exact ⟨by simp, hp, hm⟩
  | workerReadyStep =>
    simp only [stepEvents, step, stepWorkerReady]
    by_cases hw : st.workerAlive && !st.workerReady
    · simp only [hw, if_pos]
      exact ⟨by simp, hp, hm⟩
    · simp only [hw, Bool.false_eq_true, if_neg, not_false_iff]
      exact ⟨by simp, hp, hm⟩
  | workerProcess =>
    simp only [stepEvents, step, stepWorkerProcess]
    by_cases hw : st.workerAlive
    · simp only [hw, if_pos]
      cases hq : st.toWorker with
      | nil => exact ⟨by simp, hp, hm⟩
      | cons msg rest =>
        cases msg with
        | initMsg => exact ⟨by simp, hp, hm⟩
        | evaluateMsg d serial =>
          by_cases hr : st.workerReady
          · simp only [hr, if_pos]
            exact ⟨by simp, hp, hm⟩
          · simp only [hr, Bool.false_eq_true, if_neg, not_false_iff]
            exact ⟨by simp, hp, hm⟩
        | stopMsg =>
          by_cases hr : st.workerReady
          · simp only [hr, if_pos]
            exact ⟨by simp, hp, hm⟩
          · simp only [hr, Bool.false_eq_true, if_neg, not_false_iff]
            exact ⟨by simp, hp, hm⟩
    · simp only [hw, Bool.false_eq_true, if_neg, not_false_iff]
      exact ⟨by simp, hp, hm⟩
  | emitInfo s =>
    simp only [stepEvents, step, stepEmitInfo]
    by_cases hw : st.workerAlive
    · simp only [hw, if_pos]
      cases hg : st.engineActive with
      | none => exact ⟨by simp, hp, hm⟩
      | some g => exact ⟨by simp, hp, hm⟩
    · simp only [hw, Bool.false_eq_true, if_neg, not_false_iff]
      exact ⟨by simp, hp, hm⟩
  | emitBestmoveActive s =>
    simp only [stepEvents, step, stepEmitBestmoveActive]
    by_cases hw : st.workerAlive
    · simp only [hw, if_pos]
      cases hg : st.engineActive with
      | none => exact ⟨by simp, hp, hm⟩
      | some g => exact ⟨by simp, hp, hm⟩
    · simp only [hw, Bool.false_eq_true, if_neg, not_false_iff]
      exact ⟨by simp, hp, hm⟩
  | emitBestmoveStopped g s =>
    simp only [stepEvents, step, stepEmitBestmoveStopped]
    by_cases hw : st.workerAlive && g ∈ st.engineStopped
    · simp only [hw, if_pos]
      exact ⟨by simp, hp, hm⟩
    · simp only [hw, Bool.false_eq_true, if_neg, not_false_iff]
      exact ⟨by simp, hp, hm⟩

/-- With nothing pending and no mapping, a submission-free schedule logs no
event at all. -/
theorem runFrom_inert (bs : List Act) (st : Sys)
    (hp : st.main.pendingEvaluations = []) (hm : st.main.searchIdToEvalId = [])
    (hb : ∀ a ∈ bs, isSubmitAct a = false) :
    (runFrom st bs).log = st.log ∧
    (runFrom st bs).main.pendingEvaluations = [] ∧
    (runFrom st bs).main.searchIdToEvalId = [] := by
  induction bs generalizing st with
  | nil => exact ⟨rfl, hp, hm⟩
  | cons a rest ih =>
    obtain ⟨he, hp', hm'⟩ := step_inert st a hp hm (hb a (List.mem_cons_self a rest))
    obtain ⟨ihe, ihp, ihm⟩ := ih (step st a) hp' hm'
      (fun x hx => hb x (List.mem_cons_of_mem a hx))
    refine ⟨?_, ihp, ihm⟩
    rw [show runFrom st (a :: rest) = runFrom (step st a) rest from rfl, ihe,
      step_log, he, List.append_nil]

end Sys

/-- A `bestmove` line is never an `info` line (the guards are exclusive). -/
theorem bestmove_not_info (m : String) (h : isBestmoveLine m = true) :
    isInfoScore m = false := by
  unfold isBestmoveLine at h
  unfold isInfoScore
  cases hd : m.data with
  | nil => rw [hd] at h; cases h
  | cons c cs =>
    rw [hd] at h
    have hc : c = 'b' := by
      simp only [lstartsWith, String.data] at h
      have := (Bool.and_eq_true _ _).mp h
      simpa using this.1
    subst hc
    simp [lstartsWith]

/-- An `info` line is never a `bestmove` line. -/
theorem info_not_bestmove (m : String) (h : isInfoScore m = true) :
    isBestmoveLine m = false := by
  unfold isInfoScore at h
  unfold isBestmoveLine
  cases hd : m.data with
  | nil =>
    rw [hd] at h
    simp [lstartsWith] at h
  | cons c cs =>
    rw [hd] at h
    have hc : c = 'i' := by
      have := ((Bool.and_eq_true _ _).mp h).1
      simp only [lstartsWith] at this
      have := (Bool.and_eq_true _ _).mp this
      simpa using this.1
    subst hc
    simp [lstartsWith]

namespace ChessEngine

/-- The clean single-request dialogue: with exactly one pending evaluation and
no mapping, a score-bearing `info` line followed by a completion line (both
stamped with the same searchId) resolves the request with the parsed score
and the completion line's move (falling back to the `info` line's pv). -/
theorem handle_single_dialog (msg1 msg2 : String) (sid : Nat) (g g' : Gen)
    (st : MainState) (e s d : Nat)
    (hp : st.pendingEvaluations = [⟨e, s, d, none⟩])
    (hm : st.searchIdToEvalId = [])
    (hi : isInfoScore msg1 = true)
    (k : ScoreKind) (n : Int) (hsc : findScore msg1 = some (k, n))
    (hb : isBestmoveLine msg2 = true) :
    (handleStockfishMessage msg2 (some sid) g'
      (handleStockfishMessage msg1 (some sid) g st).1).2 =
      [Event.resolved s
        ⟨computeScore k n,
         match findBestmove msg2 with
         | some mv => some mv
         | none => findPv msg1⟩ g'] ∧
    (handleStockfishMessage msg2 (some sid) g'
      (handleStockfishMessage msg1 (some sid) g st).1).1.pendingEvaluations = [] := by
  obtain ⟨pend, eid, m, ir, hw⟩ := st
  simp only at hp hm
  subst hp
  subst hm
  have hst1 : handleStockfishMessage msg1 (some sid) g
      ⟨[⟨e, s, d, none⟩], eid, [], ir, hw⟩ =
      (⟨[⟨e, s, d, some ⟨computeScore k n, findPv msg1⟩⟩], eid, [(sid, e)], ir, hw⟩,
        []) := by
    unfold handleStockfishMessage
    have hinfo : infoPhase msg1 (some sid) ⟨[⟨e, s, d, none⟩], eid, [], ir, hw⟩ =
        ⟨[⟨e, s, d, some ⟨computeScore k n, findPv msg1⟩⟩], eid, [(sid, e)], ir, hw⟩ := by
      unfold infoPhase
      rw [hi, hsc]
      simp [resolveSid, lookupSid, firstUnmapped, isMappedE, mapValues, updateEval,
        List.find?]
    rw [hinfo]
    unfold bestmovePhase
    rw [info_not_bestmove msg1 hi]
    simp
  rw [hst1]
  unfold handleStockfishMessage
  have hinfo2 : infoPhase msg2 (some sid)
      ⟨[⟨e, s, d, some ⟨computeScore k n, findPv msg1⟩⟩], eid, [(sid, e)], ir, hw⟩ =
      ⟨[⟨e, s, d, some ⟨computeScore k n, findPv msg1⟩⟩], eid, [(sid, e)], ir, hw⟩ := by
    unfold infoPhase
    rw [bestmove_not_info msg2 hb]
    simp
  rw [hinfo2]
  unfold bestmovePhase
  rw [hb]
  cases hfb : findBestmove msg2 with
  | none =>
    simp [resolveSid, lookupSid, firstUnmapped, isMappedE, mapValues, removePending,
      eraseByValue, removeKey, List.find?]
  | some mv =>
    simp [resolveSid, lookupSid, firstUnmapped, isMappedE, mapValues, removePending,
      eraseByValue, removeKey, List.find?]

end ChessEngine

namespace ChessEngineOld

/-- The same clean single-request dialogue for the older engine module: the
`info` line fills the shared accumulator and the completion line resolves the
single pending evaluation. -/
theorem old_handle_single_dialog (msg1 msg2 : String) (st : OldState) (eO sO : Nat)
    (hp : st.pendingEvaluations = [(eO, sO)])
    (hc : st.currentEvaluation = none)
    (hi : isInfoScore msg1 = true)
    (k : ScoreKind) (n : Int) (hsc : findScore msg1 = some (k, n))
    (hb : isBestmoveLine msg2 = true) :
    (handleStockfishMessage msg2 (handleStockfishMessage msg1 st).1).2 =
      [Event.resolved sO
        ⟨computeScore k n,
         match findBestmove msg2 with
         | some mv => some mv
         | none => findPv msg1⟩ (0, 0)] ∧
    (handleStockfishMessage msg2
      (handleStockfishMessage msg1 st).1).1.pendingEvaluations = [] := by
  obtain ⟨pend, eid, cur, ir, hw⟩ := st
  simp only at hp hc
  subst hp
  subst hc
  have hst1 : handleStockfishMessage msg1 ⟨[(eO, sO)], eid, none, ir, hw⟩ =
      (⟨[(eO, sO)], eid, some ⟨computeScore k n, findPv msg1⟩, ir, hw⟩, []) := by
    unfold handleStockfishMessage
    rw [hi, hsc, info_not_bestmove msg1 hi]
    simp
  rw [hst1]
  unfold handleStockfishMessage
  rw [bestmove_not_info msg2 hb, hb]
  cases hfb : findBestmove msg2 with
  | none => simp
  | some mv => simp

end ChessEngineOld

/-! ## The claims -/

/-- C6: if exactly one `evaluate(fen, 15)` call is pending (no mapping
established yet) and the worker delivers an `info ... score cp 34 ... pv e2e4`
line followed by `bestmove e2e4` for its search, that call resolves with
exactly `{score: 34, bestMove: "e2e4"}` and its pending entry is removed. -/
theorem C6_single_request_roundtrip (st : ChessEngine.MainState)
    (e s d sid : Nat) (g g' : Gen)
    (hp : st.pendingEvaluations = [⟨e, s, d, none⟩])
    (hm : st.searchIdToEvalId = []) :
    (ChessEngine.handleStockfishMessage "bestmove e2e4" (some sid) g'
      (ChessEngine.handleStockfishMessage
        "info depth 15 seldepth 21 score cp 34 nodes 12345 pv e2e4 e7e5"
        (some sid) g st).1).2 =
      [Event.resolved s ⟨34, some "e2e4"⟩ g'] ∧
    (ChessEngine.handleStockfishMessage "bestmove e2e4" (some sid) g'
      (ChessEngine.handleStockfishMessage
        "info depth 15 seldepth 21 score cp 34 nodes 12345 pv e2e4 e7e5"
        (some sid) g st).1).1.pendingEvaluations = [] := by
  have h := ChessEngine.handle_single_dialog
    "info depth 15 seldepth 21 score cp 34 nodes 12345 pv e2e4 e7e5" "bestmove e2e4"
    sid g g' st e s d hp hm (by decide) ScoreKind.cp 34 (by decide) (by decide)
  have hfb : findBestmove "bestmove e2e4" = some "e2e4" := by decide
  refine ⟨?_, h.2⟩
  rw [h.1, hfb]
  rfl

/-- C6 witness: the theorem applied to a concrete single-pending state. -/
theorem C6_witness :
    ((⟨[⟨1, 0, 30, none⟩], 1, [], true, true⟩ :
        ChessEngine.MainState).pendingEvaluations = [⟨1, 0, 30, none⟩]) ∧
    (ChessEngine.handleStockfishMessage "bestmove e2e4" (some 1) (1, 1)
      (ChessEngine.handleStockfishMessage
        "info depth 15 seldepth 21 score cp 34 nodes 12345 pv e2e4 e7e5"
        (some 1) (1, 1)
        (⟨[⟨1, 0, 30, none⟩], 1, [], true, true⟩ : ChessEngine.MainState)).1).2 =
      [Event.resolved 0 ⟨34, some "e2e4"⟩ (1, 1)] :=
  ⟨rfl, (C6_single_request_roundtrip ⟨[⟨1, 0, 30, none⟩], 1, [], true, true⟩
    1 0 30 1 (1, 1) (1, 1) rfl rfl).1⟩

/-- C7: a forced-mate score line sets the accumulated score to the fixed
sentinel `+10000`/`-10000` by the sign of the mate distance, independent of
its magnitude: `score mate 3` then `bestmove f7f8q` resolves with
`{10000, "f7f8q"}`, and `score mate -2` yields `-10000`. -/
theorem C7_mate_sentinel (st1 st2 : ChessEngine.MainState)
    (e1 s1 d1 sid1 e2 s2 d2 sid2 : Nat) (g1 g1' g2 g2' : Gen)
    (hp1 : st1.pendingEvaluations = [⟨e1, s1, d1, none⟩])
    (hm1 : st1.searchIdToEvalId = [])
    (hp2 : st2.pendingEvaluations = [⟨e2, s2, d2, none⟩])
    (hm2 : st2.searchIdToEvalId = []) :
    ((ChessEngine.handleStockfishMessage "bestmove f7f8q" (some sid1) g1'
      (ChessEngine.handleStockfishMessage "info depth 10 score mate 3 nodes 500"
        (some sid1) g1 st1).1).2 =
      [Event.resolved s1 ⟨10000, some "f7f8q"⟩ g1']) ∧
    ((ChessEngine.handleStockfishMessage "bestmove a1b1" (some sid2) g2'
      (ChessEngine.handleStockfishMessage "info depth 8 score mate -2 nodes 100"
        (some sid2) g2 st2).1).2 =
      [Event.resolved s2 ⟨-10000, some "a1b1"⟩ g2']) ∧
    (∀ n : Int, computeScore ScoreKind.mate n = if 0 < n then 10000 else -10000) := by
  have h1 := ChessEngine.handle_single_dialog
    "info depth 10 score mate 3 nodes 500" "bestmove f7f8q"
    sid1 g1 g1' st1 e1 s1 d1 hp1 hm1 (by decide) ScoreKind.mate 3 (by decide) (by decide)
  have h2 := ChessEngine.handle_single_dialog
    "info depth 8 score mate -2 nodes 100" "bestmove a1b1"
    sid2 g2 g2' st2 e2 s2 d2 hp2 hm2 (by decide) ScoreKind.mate (-2) (by decide)
    (by decide)
  have hfb1 : findBestmove "bestmove f7f8q" = some "f7f8q" := by decide
  have hfb2 : findBestmove "bestmove a1b1" = some "a1b1" := by decide
  refine ⟨?_, ?_, fun n => rfl⟩
  · rw [h1.1, hfb1]
    rfl
  · rw [h2.1, hfb2]
    rfl

/-- C7 witness: the theorem applied to concrete single-pending states. -/
theorem C7_witness :
    ((⟨[⟨1, 0, 30, none⟩], 1, [], true, true⟩ :
        ChessEngine.MainState).pendingEvaluations = [⟨1, 0, 30, none⟩]) ∧
    (ChessEngine.handleStockfishMessage "bestmove f7f8q" (some 1) (1, 1)
      (ChessEngine.handleStockfishMessage "info depth 10 score mate 3 nodes 500"
        (some 1) (1, 1)
        (⟨[⟨1, 0, 30, none⟩], 1, [], true, true⟩ : ChessEngine.MainState)).1).2 =
      [Event.resolved 0 ⟨10000, some "f7f8q"⟩ (1, 1)] ∧
    (ChessEngine.handleStockfishMessage "bestmove a1b1" (some 1) (1, 1)
      (ChessEngine.handleStockfishMessage "info depth 8 score mate -2 nodes 100"
        (some 1) (1, 1)
        (⟨[⟨1, 0, 30, none⟩], 1, [], true, true⟩ : ChessEngine.MainState)).1).2 =
      [Event.resolved 0 ⟨-10000, some "a1b1"⟩ (1, 1)] :=
  ⟨rfl,
    (C7_mate_sentinel ⟨[⟨1, 0, 30, none⟩], 1, [], true, true⟩
      ⟨[⟨1, 0, 30, none⟩], 1, [], true, true⟩ 1 0 30 1 1 0 30 1
      (1, 1) (1, 1) (1, 1) (1, 1) rfl rfl rfl rfl).1,
    (C7_mate_sentinel ⟨[⟨1, 0, 30, none⟩], 1, [], true, true⟩
      ⟨[⟨1, 0, 30, none⟩], 1, [], true, true⟩ 1 0 30 1 1 0 30 1
      (1, 1) (1, 1) (1, 1) (1, 1) rfl rfl rfl rfl).2.1⟩

/-- C8 counterexample: a completion line with no parseable move
(`bestmove (none)`, the engine's output at stalemate/checkmate) arriving for a
request with no prior score line is *rejected* with `'Evaluation incomplete'`,
not resolved with a neutral score as the claim states. -/
theorem C8_counterexample :
    ceBestmoveNone.2 = [Event.rejected 0 "Evaluation incomplete"] ∧
    (∀ r g, Event.resolved 0 r g ∉ ceBestmoveNone.2) := by
  constructor
  · decide
  · intro r g hc
    have : ceBestmoveNone.2 = [Event.rejected 0 "Evaluation incomplete"] := by decide
    rw [this] at hc
    simp at hc

/-- C8 amended: a completion line arriving for a request with no prior score
line resolves the request with neutral score 0 and the completion line's move
*when that line carries a parseable move*; when it carries none, the request
is instead rejected with `'Evaluation incomplete'`. -/
theorem C8_incomplete_completion (st : ChessEngine.MainState)
    (e s d sid : Nat) (g : Gen) (msg : String)
    (hp : st.pendingEvaluations = [⟨e, s, d, none⟩])
    (hm : st.searchIdToEvalId = [])
    (hb : isBestmoveLine msg = true) :
    (∀ mv, findBestmove msg = some mv →
      (ChessEngine.handleStockfishMessage msg (some sid) g st).2 =
        [Event.resolved s ⟨0, some mv⟩ g]) ∧
    (findBestmove msg = none →
      (ChessEngine.handleStockfishMessage msg (some sid) g st).2 =
        [Event.rejected s "Evaluation incomplete"]) := by
  obtain ⟨pend, eid, m, ir, hw⟩ := st
  simp only at hp hm
  subst hp
  subst hm
  unfold ChessEngine.handleStockfishMessage
  have hinfo : ChessEngine.infoPhase msg (some sid)
      ⟨[⟨e, s, d, none⟩], eid, [], ir, hw⟩ =
      ⟨[⟨e, s, d, none⟩], eid, [], ir, hw⟩ := by
    unfold ChessEngine.infoPhase
    rw [bestmove_not_info msg hb]
    simp
  rw [hinfo]
  unfold ChessEngine.bestmovePhase
  rw [hb]
  constructor
  · intro mv hmv
    rw [hmv]
    simp [ChessEngine.resolveSid, ChessEngine.lookupSid, ChessEngine.firstUnmapped,
      ChessEngine.isMappedE, ChessEngine.mapValues, List.find?]
  · intro hmv
    rw [hmv]
    simp [ChessEngine.resolveSid, ChessEngine.lookupSid, ChessEngine.firstUnmapped,
      ChessEngine.isMappedE, ChessEngine.mapValues, List.find?]

/-- C8 witness: both branches at concrete inputs. -/
theorem C8_witness :
    findBestmove "bestmove h7h8q" = some "h7h8q" ∧
    (ChessEngine.handleStockfishMessage "bestmove h7h8q" (some 1) (1, 1)
      (⟨[⟨1, 0, 30, none⟩], 1, [], true, true⟩ : ChessEngine.MainState)).2 =
      [Event.resolved 0 ⟨0, some "h7h8q"⟩ (1, 1)] ∧
    (ChessEngine.handleStockfishMessage "bestmove (none)" (some 1) (1, 1)
      (⟨[⟨1, 0, 30, none⟩], 1, [], true, true⟩ : ChessEngine.MainState)).2 =
      [Event.rejected 0 "Evaluation incomplete"] :=
  ⟨by decide,
    (C8_incomplete_completion ⟨[⟨1, 0, 30, none⟩], 1, [], true, true⟩
      1 0 30 1 (1, 1) "bestmove h7h8q" rfl rfl (by decide)).1 "h7h8q" (by decide),
    (C8_incomplete_completion ⟨[⟨1, 0, 30, none⟩], 1, [], true, true⟩
      1 0 30 1 (1, 1) "bestmove (none)" rfl rfl (by decide)).2 (by decide)⟩

/-- C10: in the clean single-pending scenario (one pending call, a
score-bearing `info` line then a `bestmove` line delivered for its search),
the two `ChessEngine` implementations (`src/unnamed/part_002` and
`src/src/lib/chessEngine.ts`) resolve the call with the same
`EvaluationResult`. -/
theorem C10_engines_agree (stN : ChessEngine.MainState)
    (stO : ChessEngineOld.OldState) (e s d sid eO sO : Nat) (g g' : Gen)
    (msg1 msg2 : String)
    (hpN : stN.pendingEvaluations = [⟨e, s, d, none⟩])
    (hmN : stN.searchIdToEvalId = [])
    (hpO : stO.pendingEvaluations = [(eO, sO)])
    (hcO : stO.currentEvaluation = none)
    (hi : isInfoScore msg1 = true)
    (k : ScoreKind) (n : Int) (hsc : findScore msg1 = some (k, n))
    (hb : isBestmoveLine msg2 = true) :
    ∃ res : EvalResult,
      (ChessEngine.handleStockfishMessage msg2 (some sid) g'
        (ChessEngine.handleStockfishMessage msg1 (some sid) g stN).1).2 =
        [Event.resolved s res g'] ∧
      (ChessEngineOld.handleStockfishMessage msg2
        (ChessEngineOld.handleStockfishMessage msg1 stO).1).2 =
        [Event.resolved sO res (0, 0)] := by
  refine ⟨⟨computeScore k n,
    match findBestmove msg2 with
    | some mv => some mv
    | none => findPv msg1⟩, ?_, ?_⟩
  · exact (ChessEngine.handle_single_dialog msg1 msg2 sid g g' stN e s d
      hpN hmN hi k n hsc hb).1
  · exact (ChessEngineOld.old_handle_single_dialog msg1 msg2 stO eO sO
      hpO hcO hi k n hsc hb).1

/-- C10 witness: the two engines at a concrete state and concrete lines. -/
theorem C10_witness :
    isInfoScore "info depth 12 score cp -55 pv d7d5" = true ∧
    ∃ res : EvalResult,
      (ChessEngine.handleStockfishMessage "bestmove d7d5" (some 1) (1, 1)
        (ChessEngine.handleStockfishMessage "info depth 12 score cp -55 pv d7d5"
          (some 1) (1, 1)
          (⟨[⟨1, 0, 30, none⟩], 1, [], true, true⟩ :
            ChessEngine.MainState)).1).2 = [Event.resolved 0 res (1, 1)] ∧
      (ChessEngineOld.handleStockfishMessage "bestmove d7d5"
        (ChessEngineOld.handleStockfishMessage "info depth 12 score cp -55 pv d7d5"
          (⟨[(1, 0)], 1, none, true, true⟩ : ChessEngineOld.OldState)).1).2 =
        [Event.resolved 0 res (0, 0)] :=
  ⟨by decide,
    C10_engines_agree ⟨[⟨1, 0, 30, none⟩], 1, [], true, true⟩
      ⟨[(1, 0)], 1, none, true, true⟩ 1 0 30 1 1 0 (1, 1) (1, 1)
      "info depth 12 score cp -55 pv d7d5" "bestmove d7d5"
      rfl rfl rfl rfl (by decide) ScoreKind.cp (-55) (by decide) (by decide)⟩

/-- C1 counterexample: under the first-unmapped-wins correlation heuristic, a
result produced by request 0's search (generation (1,1), owned by serial 0) is
delivered to request 1 — the invariant "every result corresponds to the
request that caused the search that produced it" fails on this schedule. -/
theorem C1_counterexample : ¬ ResultsCorrectlyAttributed (Sys.run ceMisattributed) := by
  intro h
  have hmem : Event.resolved 1 ⟨50, some "a2a3"⟩ (1, 1) ∈
      (Sys.run ceMisattributed).log := by decide
  have := h 1 ⟨50, some "a2a3"⟩ (1, 1) hmem
  exact absurd this (by decide)

/-- C1 amended: a result is only ever delivered to a request that is still
pending at delivery time, and every request receives at most one outcome —
but the delivered result may originate from a different request's search. -/
theorem C1_delivery_discipline :
    (∀ (st : Sys) (a : Act) (s : Nat) (r : EvalResult) (g : Gen),
      Event.resolved s r g ∈ (Sys.step st a).log →
      Event.resolved s r g ∈ st.log ∨ s ∈ Sys.pendingSerials st) ∧
    (∀ (as : List Act) (s : Nat), outcomeCount s (Sys.run as).log ≤ 1) := by
  constructor
  · intro st a s r g h
    rw [Sys.step_log] at h
    rcases List.mem_append.mp h with h | h
    · exact Or.inl h
    · rcases Sys.stepEvents_serials st a _ h with ⟨_, hm⟩ | hm
      · right
        simpa [eventSerial] using hm
      · cases hm
  · intro as s
    exact (Sys.wf_run as).wfm.out_le s

/-- C1 amended witness: the delivery-discipline facts at a concrete schedule
(the final delivery of `ceTwoResolved`) and a concrete serial. -/
theorem C1_witness :
    (Event.resolved 1 ⟨-10, some "d7d5"⟩ (1, 2) ∈
      (Sys.step (Sys.run (ceTwoResolved.take 15)) Act.deliverMain).log) ∧
    (Event.resolved 1 ⟨-10, some "d7d5"⟩ (1, 2) ∈ (Sys.run (ceTwoResolved.take 15)).log ∨
      1 ∈ Sys.pendingSerials (Sys.run (ceTwoResolved.take 15))) ∧
    outcomeCount 1 (Sys.run ceTwoResolved).log ≤ 1 :=
  ⟨by decide,
    C1_delivery_discipline.1 (Sys.run (ceTwoResolved.take 15)) Act.deliverMain
      1 ⟨-10, some "d7d5"⟩ (1, 2) (by decide),
    C1_delivery_discipline.2 ceTwoResolved 1⟩

/-- C2 counterexample: a schedule in which both `evaluate()` calls are issued
before any of them resolves (all `submitted` events precede the first
resolution in the log) and yet *both* resolve with real results — the first
request is generation-mapped when the second arrives and survives, refuting
"at most one of the N calls ultimately resolves". -/
theorem C2_counterexample :
    submissionsFirst (Sys.run ceTwoResolved).log = true ∧
    ¬ resolvedTotal (Sys.run ceTwoResolved).log ≤ 1 := by
  constructor
  · decide
  · decide

/-- C2 amended: every submitted `evaluate()` call reaches a terminal state —
once the clock advances a full timeout window past the current instant, every
submitted request has been resolved or rejected (superseded, stopped,
terminated, or timed out); none is silently dropped. -/
theorem C2_no_silent_drop (as : List Act) (s : Nat)
    (hs : s ∈ (Sys.run as).submittedSerials) :
    0 < outcomeCount s
      (Sys.step (Sys.run as) (Act.tick ((Sys.run as).clock + 30))).log := by
  have h := Sys.wf_run as
  rw [Sys.step_log, outcomeCount_append]
  rcases h.sub_out s hs with hc | hp
  · omega
  · have hpos : 0 < outcomeCount s
        (Sys.stepEvents (Sys.run as) (Act.tick ((Sys.run as).clock + 30))) := by
      simp only [Sys.stepEvents, Sys.stepTick, ChessEngine.tickStep]
      rw [Sys.pendingSerials_def] at hp
      obtain ⟨q, hq, hqs⟩ := List.mem_map.mp hp
      apply rejected_mem_outcomeCount (m := "Evaluation timeout")
      rw [← hqs]
      apply List.mem_map_of_mem
      apply List.mem_filter.mpr
      refine ⟨hq, ?_⟩
      have hd := h.wfm.deadline_le q.deadline (List.mem_map_of_mem _ hq)
      simp only [decide_eq_true_eq]
      omega
    omega

/-- C2 amended witness: a concrete schedule whose single submission is
settled after the flush tick. -/
theorem C2_witness :
    (0 ∈ (Sys.run [Act.initAct, Act.workerReadyStep, Act.deliverMain,
      Act.submit 15]).submittedSerials) ∧
    0 < outcomeCount 0
      (Sys.step (Sys.run [Act.initAct, Act.workerReadyStep, Act.deliverMain,
        Act.submit 15])
        (Act.tick ((Sys.run [Act.initAct, Act.workerReadyStep, Act.deliverMain,
          Act.submit 15]).clock + 30))).log :=
  ⟨by decide,
    C2_no_silent_drop [Act.initAct, Act.workerReadyStep, Act.deliverMain,
      Act.submit 15] 0 (by decide)⟩

/-- C3 counterexample: request 0's search generation (1,1) has been observed
in an engine output line (`info depth 1 seldepth 1`, which carries its stamp
but no score), yet the next submission still rejects request 0 as superseded:
observation of output does not protect a request, only a score-bearing or
completion line (which establishes the mapping) does. -/
theorem C3_counterexample :
    (1, 1) ∈ (Sys.run ceObservedButUnmapped).observedGens ∧
    ((1, 1), 0) ∈ (Sys.run ceObservedButUnmapped).genOwner ∧
    0 ∈ Sys.pendingSerials (Sys.run ceObservedButUnmapped) ∧
    Event.rejected 0 "Evaluation cancelled by new request" ∈
      (Sys.step (Sys.run ceObservedButUnmapped) (Act.submit 15)).log := by
  refine ⟨by decide, by decide, by decide, by decide⟩

/-- C3 amended: a new submission rejects as superseded exactly the pending
requests that have no `searchIdToEvalId` mapping; a mapped pending request is
never rejected as superseded. -/
theorem C3_exactly_unmapped_superseded (st : Sys) (d : Nat) (p : PendingEntry)
    (hnd : (ChessEngine.serialsOf st.main.pendingEvaluations).Nodup)
    (hw : st.main.hasWorker = true) (hr : st.main.isReady = true)
    (hp : p ∈ st.main.pendingEvaluations) :
    (ChessEngine.isMappedE st.main.searchIdToEvalId p.evalId = false →
      Event.rejected p.serial "Evaluation cancelled by new request" ∈
        Sys.stepEvents st (Act.submit d)) ∧
    (ChessEngine.isMappedE st.main.searchIdToEvalId p.evalId = true →
      Event.rejected p.serial "Evaluation cancelled by new request" ∉
        Sys.stepEvents st (Act.submit d)) := by
  have hguard : (st.main.hasWorker && st.main.isReady) = true := by simp [hw, hr]
  constructor
  · intro hm
    simp only [Sys.stepEvents, Sys.stepSubmit, hguard, if_pos,
      ChessEngine.getEvaluationStep]
    apply List.mem_append_left
    exact List.mem_map.mpr ⟨p, List.mem_filter.mpr ⟨hp, by simp [hm]⟩, rfl⟩
  · intro hm hc
    simp only [Sys.stepEvents, Sys.stepSubmit, hguard, if_pos,
      ChessEngine.getEvaluationStep] at hc
    rcases List.mem_append.mp hc with hc | hc
    · obtain ⟨q, hq, hqe⟩ := List.mem_map.mp hc
      have hqs : q.serial = p.serial := by
        injection hqe
      have hqp : q = p := by
        have hinj := List.inj_on_of_nodup_map
          (f := fun p : PendingEntry => p.serial) (l := st.main.pendingEvaluations)
          (by simpa [ChessEngine.serialsOf] using hnd)
        exact hinj (List.mem_of_mem_filter hq) hp hqs
      have hqf := (List.mem_filter.mp hq).2
      rw [hqp] at hqf
      simp [hm] at hqf
    · simp at hc

/-- C3 amended witness: a state with one mapped and one unmapped pending
request; the unmapped one is superseded, the mapped one is not. -/
theorem C3_witness :
    ((⟨1, 0, 30, some ⟨30, some "e2e4"⟩⟩ : PendingEntry) ∈
      (Sys.run (ceTwoResolved.take 8)).main.pendingEvaluations) ∧
    (ChessEngine.isMappedE
      (Sys.run (ceTwoResolved.take 8)).main.searchIdToEvalId 1 = true) ∧
    Event.rejected 0 "Evaluation cancelled by new request" ∉
      Sys.stepEvents (Sys.run (ceTwoResolved.take 8)) (Act.submit 15) :=
  ⟨by decide, by decide,
    (C3_exactly_unmapped_superseded (Sys.run (ceTwoResolved.take 8)) 15
      ⟨1, 0, 30, some ⟨30, some "e2e4"⟩⟩ (by decide) (by decide) (by decide)
      (by decide)).2 (by decide)⟩

/-- C4 counterexample: generation (1,1) was started before the stop, its
output lines were still in flight when `stopEvaluation()` ran, and after a new
submission the delayed pre-stop `bestmove` line resolves the new request —
refuting "no engine output line belonging to a pre-stop search generation ever
resolves any request afterwards". -/
theorem C4_counterexample :
    (1, 1) ∈ (Sys.run ceStopPre).startedGens ∧
    ceStopStale = ceStopPre ++ [Act.stopEval, Act.submit 15, Act.deliverMain,
      Act.deliverMain] ∧
    (Sys.run ceStopStale).log =
      [Event.submitted 0, Event.rejected 0 "Evaluation stopped",
       Event.submitted 1, Event.resolved 1 ⟨21, some "e2e4"⟩ (1, 1)] := by
  refine ⟨by decide, rfl, by decide⟩

/-- C4 amended: `stopEvaluation()` rejects every request pending at that
moment with `'Evaluation stopped'` and clears all generation mappings; as
long as no new request is submitted afterwards, every subsequent step
(including delivery of delayed pre-stop output) logs no event at all, so
pre-stop output resolves nothing.  (A pre-stop line can, however, be
attributed to a request submitted *after* the stop.) -/
theorem C4_stop_rejects_all (st : Sys) (bs : List Act)
    (hw : st.main.hasWorker = true) (hr : st.main.isReady = true)
    (hb : ∀ a ∈ bs, isSubmitAct a = false) :
    Sys.stepEvents st Act.stopEval = st.main.pendingEvaluations.map
      (fun p => Event.rejected p.serial "Evaluation stopped") ∧
    (Sys.step st Act.stopEval).main.pendingEvaluations = [] ∧
    (Sys.step st Act.stopEval).main.searchIdToEvalId = [] ∧
    (Sys.runFrom (Sys.step st Act.stopEval) bs).log = (Sys.step st Act.stopEval).log := by
  have hguard : (st.main.hasWorker && st.main.isReady) = true := by simp [hw, hr]
  have h1 : Sys.stepEvents st Act.stopEval = st.main.pendingEvaluations.map
      (fun p => Event.rejected p.serial "Evaluation stopped") := by
    simp only [Sys.stepEvents, Sys.stepStop, ChessEngine.stopEvaluationStep, hguard,
      if_pos]
  have h2 : (Sys.step st Act.stopEval).main.pendingEvaluations = [] := by
    simp only [Sys.step, Sys.stepStop, ChessEngine.stopEvaluationStep, hguard, if_pos]
  have h3 : (Sys.step st Act.stopEval).main.searchIdToEvalId = [] := by
    simp only [Sys.step, Sys.stepStop, ChessEngine.stopEvaluationStep, hguard, if_pos]
  exact ⟨h1, h2, h3, (Sys.runFrom_inert bs _ h2 h3 hb).1⟩

/-- C4 amended witness: the concrete stop schedule with a submission-free
continuation — the delayed pre-stop output is delivered and ignored. -/
theorem C4_witness :
    Sys.stepEvents (Sys.run ceStopPre) Act.stopEval =
      [Event.rejected 0 "Evaluation stopped"] ∧
    (Sys.runFrom (Sys.step (Sys.run ceStopPre) Act.stopEval)
      [Act.deliverMain, Act.deliverMain]).log =
      (Sys.step (Sys.run ceStopPre) Act.stopEval).log := by
  have h := C4_stop_rejects_all (Sys.run ceStopPre)
    [Act.deliverMain, Act.deliverMain] (by decide) (by decide) (by decide)
  refine ⟨?_, h.2.2.2⟩
  rw [h.1]
  decide

/-- C5: a request still pending when the clock passes its 30-unit deadline is
rejected with `'Evaluation timeout'`; at that moment its pending entry and
its searchId-to-evalId mapping are removed, and no later schedule can ever
resolve it. -/
theorem C5_timeout (as bs : List Act) (p : PendingEntry) (t : Nat)
    (hp : p ∈ (Sys.run as).main.pendingEvaluations)
    (hd : p.deadline ≤ t) :
    Event.rejected p.serial "Evaluation timeout" ∈
      (Sys.step (Sys.run as) (Act.tick t)).log ∧
    (∀ q ∈ (Sys.step (Sys.run as) (Act.tick t)).main.pendingEvaluations,
      q.evalId ≠ p.evalId) ∧
    (∀ sid, (sid, p.evalId) ∉
      (Sys.step (Sys.run as) (Act.tick t)).main.searchIdToEvalId) ∧
    (∀ r g, Event.resolved p.serial r g ∉
      (Sys.runFrom (Sys.step (Sys.run as) (Act.tick t)) bs).log) := by
  have hwf := Sys.wf_run as
  set st := Sys.run as with hst
  have hdt : p.deadline ≤ max st.clock t := le_trans hd (le_max_right _ _)
  have hdue : p ∈ st.main.pendingEvaluations.filter
      (fun q => q.deadline ≤ max st.clock t) :=
    List.mem_filter.mpr ⟨hp, by simpa using hdt⟩
  have hpid : p.evalId ∈ (st.main.pendingEvaluations.filter
      (fun q => q.deadline ≤ max st.clock t)).map (fun q => q.evalId) :=
    List.mem_map_of_mem _ hdue
  have h1 : Event.rejected p.serial "Evaluation timeout" ∈
      Sys.stepEvents st (Act.tick t) := by
    simp only [Sys.stepEvents, Sys.stepTick, ChessEngine.tickStep]
    exact List.mem_map.mpr ⟨p, hdue, rfl⟩
  have h2 : ∀ q ∈ (Sys.step st (Act.tick t)).main.pendingEvaluations,
      q.evalId ≠ p.evalId := by
    intro q hq
    simp only [Sys.step, Sys.stepTick, ChessEngine.tickStep] at hq
    have hqf := (List.mem_filter.mp hq).2
    simp only [decide_eq_true_eq] at hqf
    intro hc
    exact hqf (hc ▸ hpid)
  have h3 : ∀ sid, (sid, p.evalId) ∉
      (Sys.step st (Act.tick t)).main.searchIdToEvalId := by
    intro sid hc
    have hval : p.evalId ∈ ChessEngine.mapValues
        ((Sys.step st (Act.tick t)).main.searchIdToEvalId) :=
      List.mem_map.mpr ⟨(sid, p.evalId), hc, rfl⟩
    have hnot := ChessEngine.foldErase_not_mem _ st.main.searchIdToEvalId p.evalId
      hwf.wfm.val_nodup hpid
    simp only [Sys.step, Sys.stepTick, ChessEngine.tickStep] at hval
    exact hnot hval
  have hser : p.serial ∈ ChessEngine.serialsOf st.main.pendingEvaluations :=
    List.mem_map_of_mem _ hp
  have hns : p.serial < st.nextSerial := hwf.wfm.serial_lt _ hser
  have hnp : p.serial ∉ Sys.pendingSerials (Sys.step st (Act.tick t)) := by
    intro hc
    rw [Sys.pendingSerials_def] at hc
    obtain ⟨q, hq, hqs⟩ := List.mem_map.mp hc
    have hqe := h2 q hq
    have hqpend : q ∈ st.main.pendingEvaluations := by
      simp only [Sys.step, Sys.stepTick, ChessEngine.tickStep] at hq
      exact List.mem_of_mem_filter hq
    have hqp : q = p := by
      have hinj := List.inj_on_of_nodup_map
        (f := fun x : PendingEntry => x.serial) (l := st.main.pendingEvaluations)
        (by simpa [ChessEngine.serialsOf] using hwf.wfm.serial_nodup)
      exact hinj hqpend hp hqs
    exact hqe (by rw [hqp])
  have hns' : p.serial < (Sys.step st (Act.tick t)).nextSerial :=
    lt_of_lt_of_le hns (Sys.step_nextSerial st _)
  have hnotlog : ∀ r g, Event.resolved p.serial r g ∉
      (Sys.step st (Act.tick t)).log := by
    intro r g hc
    rw [Sys.step_log] at hc
    rcases List.mem_append.mp hc with hc | hc
    · have hcount := resolved_mem_outcomeCount hc
      rw [hwf.wfm.pend_out _ hser] at hcount
      exact absurd hcount (by omega)
    · simp only [Sys.stepEvents, Sys.stepTick, ChessEngine.tickStep] at hc
      obtain ⟨q, _, hqe⟩ := List.mem_map.mp hc
      cases hqe
  refine ⟨?_, h2, h3, fun r g =>
    Sys.runFrom_no_new_resolved bs _ p.serial hnp hns' r g (hnotlog r g)⟩
  rw [Sys.step_log]
  exact List.mem_append_right _ h1

/-- C5 witness: a concrete pending request timed out at its deadline. -/
theorem C5_witness :
    ((⟨1, 0, 30, none⟩ : PendingEntry) ∈
      (Sys.run [Act.initAct, Act.workerReadyStep, Act.deliverMain,
        Act.submit 15]).main.pendingEvaluations) ∧
    Event.rejected 0 "Evaluation timeout" ∈
      (Sys.step (Sys.run [Act.initAct, Act.workerReadyStep, Act.deliverMain,
        Act.submit 15]) (Act.tick 30)).log :=
  ⟨by decide,
    (C5_timeout [Act.initAct, Act.workerReadyStep, Act.deliverMain, Act.submit 15]
      [Act.deliverMain] ⟨1, 0, 30, none⟩ 30 (by decide) (by decide)).1⟩

/-- C9 counterexample: via a stale `ready` message of a previous worker, a
request can be submitted before the pre-destroy output has drained, and an
engine line produced under epoch 2 (pre-destroy) then resolves a request
submitted under epoch 3 (post-restart). -/
theorem C9_counterexample : ¬ NoCrossEpochResolution (Sys.run ceCrossEpoch) := by
  intro h
  exact h 1 ⟨77, some "g1f3"⟩ (2, 1) (by decide) 3 (by decide) (by decide)

/-- C9 amended: after `destroy()` followed by `initialize()` the identifier
spaces do start fresh — `evaluationId` is 0, the new worker's
`currentSearchId` is 0, all pending and mapping state is cleared, `isReady`
drops until the new worker's handshake — and as long as no new request is
submitted, every late pre-destroy message is drained without producing any
event, so it resolves nothing. -/
theorem C9_restart_fresh (st : Sys) (bs : List Act)
    (hw : st.main.hasWorker = true)
    (hb : ∀ a ∈ bs, isSubmitAct a = false) :
    ((Sys.step (Sys.step st Act.destroyAct) Act.initAct).main.evaluationId = 0) ∧
    ((Sys.step (Sys.step st Act.destroyAct) Act.initAct).main.pendingEvaluations
      = []) ∧
    ((Sys.step (Sys.step st Act.destroyAct) Act.initAct).main.searchIdToEvalId
      = []) ∧
    ((Sys.step (Sys.step st Act.destroyAct) Act.initAct).workerSearchId = 0) ∧
    ((Sys.step (Sys.step st Act.destroyAct) Act.initAct).main.isReady = false) ∧
    ((Sys.step (Sys.step st Act.destroyAct) Act.initAct).epoch = st.epoch + 1) ∧
    ((Sys.runFrom (Sys.step (Sys.step st Act.destroyAct) Act.initAct) bs).log =
      (Sys.step (Sys.step st Act.destroyAct) Act.initAct).log) := by
  have hdm : (Sys.step st Act.destroyAct).main =
      ⟨[], 0, [], false, false⟩ := by
    simp only [Sys.step, Sys.stepDestroy, ChessEngine.destroyStep,
      ChessEngine.stopEvaluationStep, hw]
    by_cases hr : st.main.isReady
    · simp [hr]
    · simp [hr]
  have hwk : (Sys.step st Act.destroyAct).main.hasWorker = false := by
    rw [hdm]
  have hep : (Sys.step st Act.destroyAct).epoch = st.epoch := by
    simp only [Sys.step, Sys.stepDestroy, hw]
    by_cases hr : st.main.isReady <;> simp [hr]
  have hwk2 : (Sys.stepDestroy st).1.main.hasWorker = false := hwk
  have hfix : Sys.step (Sys.step st Act.destroyAct) Act.initAct =
      { (Sys.step st Act.destroyAct) with
        main := { (Sys.step st Act.destroyAct).main with hasWorker := true }
        workerAlive := true
        workerReady := false
        workerSearchId := 0
        epoch := (Sys.step st Act.destroyAct).epoch + 1
        toWorker := [WorkerMsg.initMsg]
        engineActive := none
        engineStopped := []
        log := (Sys.step st Act.destroyAct).log ++ [] } := by
    show Sys.step (Sys.step st Act.destroyAct) Act.initAct = _
    simp only [Sys.step, Sys.stepInit, hwk2, Bool.false_eq_true, if_neg, not_false_iff]
  have hpend2 : (Sys.step (Sys.step st Act.destroyAct)
      Act.initAct).main.pendingEvaluations = [] := by
    rw [hfix]
    show (Sys.step st Act.destroyAct).main.pendingEvaluations = []
    rw [hdm]
  have hmap2 : (Sys.step (Sys.step st Act.destroyAct)
      Act.initAct).main.searchIdToEvalId = [] := by
    rw [hfix]
    show (Sys.step st Act.destroyAct).main.searchIdToEvalId = []
    rw [hdm]
  refine ⟨?_, hpend2, hmap2, ?_, ?_, ?_, ?_⟩
  · rw [hfix]
    show (Sys.step st Act.destroyAct).main.evaluationId = 0
    rw [hdm]
  · rw [hfix]
  · rw [hfix]
    show (Sys.step st Act.destroyAct).main.isReady = false
    rw [hdm]
  · rw [hfix]
    show (Sys.step st Act.destroyAct).epoch + 1 = st.epoch + 1
    rw [hep]
  · exact (Sys.runFrom_inert bs (Sys.step (Sys.step st Act.destroyAct) Act.initAct)
      hpend2 hmap2 hb).1

/-- C9 amended witness: the reset facts and the submission-free drain at a
concrete destroyed-and-restarted schedule. -/
theorem C9_witness :
    ((Sys.run (ceTwoResolved.take 4)).main.hasWorker = true) ∧
    ((Sys.step (Sys.step (Sys.run (ceTwoResolved.take 4)) Act.destroyAct)
      Act.initAct).main.evaluationId = 0) ∧
    ((Sys.runFrom (Sys.step (Sys.step (Sys.run (ceTwoResolved.take 4))
        Act.destroyAct) Act.initAct) [Act.deliverMain, Act.deliverMain]).log =
      (Sys.step (Sys.step (Sys.run (ceTwoResolved.take 4)) Act.destroyAct)
        Act.initAct).log) := by
  have h := C9_restart_fresh (Sys.run (ceTwoResolved.take 4))
    [Act.deliverMain, Act.deliverMain] (by decide) (by decide)
  exact ⟨by decide, h.1, h.2.2.2.2.2.2⟩
